import Mathlib

/-!
Polyline editor with undo/redo (polylineUndo.part3.backup.js).

A shallow embedding of the command pattern (`Command`, `AddLineCommand`,
`ChangeColorCommand`, `UndoManager`) and of the xstate machine
`polylineMachine` with its actions and guards.

Objects of the rendering library (Konva lines and layers) are modelled by a
small heap: a line is identified by its index in `Canvas.lines`, and each of
the two layers of the stage is the ordered list of the lines it holds.
Repainting (`batchDraw`) and logging change nothing that is modelled.
-/

namespace PolylineUndo

/-! ## The rendering collaborator -/

/-- Pointer position in canvas coordinates, as read by `stage.getPointerPosition()`. -/
structure Pos where
  x : Int
  y : Int
deriving DecidableEq, Repr

/-- The two layers added to the stage: `dessin` (drawing) and `temporaire`. -/
inductive LayerId where
  | dessin
  | temporaire
deriving DecidableEq, Repr

/-- A `Konva.Line`: its flat coordinate array `[x0, y0, x1, y1, ...]`, its stroke
color (absent when never set or set to null) and its stroke width. -/
structure Line where
  points : List Int
  stroke : Option String
  strokeWidth : Nat
deriving DecidableEq, Repr

/-- The stage: every line object created so far (a line is named by its index),
and the children of the two layers, in order. -/
structure Canvas where
  lines : List Line
  dessin : List Nat
  temporaire : List Nat
deriving DecidableEq, Repr

namespace Canvas

/-- Children of a layer. -/
def children (s : Canvas) : LayerId → List Nat
  | .dessin => s.dessin
  | .temporaire => s.temporaire

/-- Layer holding the line, if any (`node.getParent()` / `node.getLayer()`). -/
def getParent (s : Canvas) (id : Nat) : Option LayerId :=
  if id ∈ s.dessin then some .dessin
  else if id ∈ s.temporaire then some .temporaire
  else none

/-- Append a line at the end of a layer's children. -/
def push (s : Canvas) (layer : LayerId) (id : Nat) : Canvas :=
  match layer with
  | .dessin => { s with dessin := s.dessin ++ [id] }
  | .temporaire => { s with temporaire := s.temporaire ++ [id] }

/-- Konva `node.remove()`: detach the line from the layer holding it; nothing
happens when it has no parent. -/
def remove (s : Canvas) (id : Nat) : Canvas :=
  match s.getParent id with
  | some .dessin => { s with dessin := s.dessin.erase id }
  | some .temporaire => { s with temporaire := s.temporaire.erase id }
  | none => s

/-- Konva `layer.add(node)`: a node without parent is appended to the layer; a
node that has a parent is moved (`moveTo`), which does nothing when the layer
is already its parent and otherwise removes it and appends it. -/
def add (s : Canvas) (layer : LayerId) (id : Nat) : Canvas :=
  match s.getParent id with
  | some p => if p = layer then s else (s.remove id).push layer id
  | none => s.push layer id

/-- Getter `line.points()`. -/
def points (s : Canvas) (id : Nat) : Option (List Int) :=
  (s.lines[id]?).map (fun l => l.points)

/-- Getter `line.stroke()`. -/
def stroke (s : Canvas) (id : Nat) : Option String :=
  (s.lines[id]?).bind (fun l => l.stroke)

/-- Setter `line.points(pts)`. -/
def setPoints (s : Canvas) (id : Nat) (pts : List Int) : Canvas :=
  match s.lines[id]? with
  | some l => { s with lines := s.lines.set id { l with points := pts } }
  | none => s

/-- Setter `line.stroke(color)`; a null color removes the attribute. -/
def setStroke (s : Canvas) (id : Nat) (color : Option String) : Canvas :=
  match s.lines[id]? with
  | some l => { s with lines := s.lines.set id { l with stroke := color } }
  | none => s

/-- Constructor `new Konva.Line(...)`: allocates a line, on no layer yet, and returns its
name together with the new stage. -/
def newLine (s : Canvas) (l : Line) : Nat × Canvas :=
  (s.lines.length, { s with lines := s.lines ++ [l] })

/-- What is observable of the drawing surface: the shapes on the drawing layer,
in order, each with its points and stroke color. -/
def drawing (s : Canvas) : List (Nat × Option (List Int) × Option String) :=
  s.dessin.map (fun id => (id, s.points id, s.stroke id))

end Canvas

/-- JavaScript `Array.prototype.slice(start, stop)`, negative indices counting
from the end of the array. -/
def jsSlice {α : Type} (xs : List α) (start stop : Int) : List α :=
  let len : Int := xs.length
  let from_ : Int := if start < 0 then max (len + start) 0 else min start len
  let to_ : Int := if stop < 0 then max (len + stop) 0 else min stop len
  (xs.drop from_.toNat).take (to_ - from_).toNat

/-! ## Command pattern -/

/-- Modelled from the spec: the module `./stack` (class `Stack`) is not part of
the sources; the spec describes the history as two ordered stacks of commands
with push, pop of the top and an emptiness test. The top is the head. -/
abbrev Stack (α : Type) := List α

namespace Stack

/-- Push on top. -/
def push {α : Type} (s : Stack α) (a : α) : Stack α := a :: s

/-- Pop the top, when there is one. -/
def pop {α : Type} : Stack α → Option (α × Stack α)
  | [] => none
  | a :: s => some (a, s)

/-- Emptiness test. -/
def isEmpty {α : Type} : Stack α → Bool
  | [] => true
  | _ :: _ => false

end Stack

/-- The two concrete commands. A `ChangeColorCommand` carries the old color
computed by its constructor. -/
inductive Command where
  | AddLineCommand (line : Nat) (layer : LayerId)
  | ChangeColorCommand (line : Option Nat) (newColor : String) (oldColor : Option String)
deriving DecidableEq, Repr

namespace Command

/-- Constructor of `ChangeColorCommand`:
`this.oldColor = line ? line.stroke() : null`. -/
def newChangeColor (s : Canvas) (line : Option Nat) (newColor : String) : Command :=
  .ChangeColorCommand line newColor (line.bind (fun id => s.stroke id))

/-- Method `execute()` of the two commands. -/
def execute (c : Command) (s : Canvas) : Canvas :=
  match c with
  | .AddLineCommand line layer => s.add layer line
  | .ChangeColorCommand none _ _ => s
  | .ChangeColorCommand (some line) newColor _ => s.setStroke line (some newColor)

/-- Method `undo()` of the two commands. -/
def undo (c : Command) (s : Canvas) : Canvas :=
  match c with
  | .AddLineCommand line _ => s.remove line
  | .ChangeColorCommand none _ _ => s
  | .ChangeColorCommand (some line) _ oldColor => s.setStroke line oldColor

end Command

/-- The history: `undoStack` and `redoStack`. -/
structure UndoManager where
  undoStack : Stack Command
  redoStack : Stack Command
deriving DecidableEq, Repr

namespace UndoManager

/-- Constructor: two empty stacks. -/
def new : UndoManager := { undoStack := [], redoStack := [] }

/-- Method `executeCommand(command)`, acting on the history and the stage. -/
def executeCommand (command : Command) (h : UndoManager × Canvas) : UndoManager × Canvas :=
  ({ undoStack := Stack.push h.1.undoStack command, redoStack := [] }, command.execute h.2)

/-- Method `undo()`. -/
def undo (h : UndoManager × Canvas) : UndoManager × Canvas :=
  if Stack.isEmpty h.1.undoStack then h
  else
    match Stack.pop h.1.undoStack with
    | none => h
    | some (cmd, rest) =>
      ({ undoStack := rest, redoStack := Stack.push h.1.redoStack cmd }, cmd.undo h.2)

/-- Method `redo()`. -/
def redo (h : UndoManager × Canvas) : UndoManager × Canvas :=
  if Stack.isEmpty h.1.redoStack then h
  else
    match Stack.pop h.1.redoStack with
    | none => h
    | some (cmd, rest) =>
      ({ undoStack := Stack.push h.1.undoStack cmd, redoStack := rest }, cmd.execute h.2)

end UndoManager

/-! ## The state machine -/

/-- Capacity constant `MAX_POINTS`. -/
def MAX_POINTS : Nat := 10

/-- States of `polylineMachine`. -/
inductive MState where
  | idle
  | onePoint
  | manyPoints
deriving DecidableEq, Repr

/-- Events sent to the machine: `MOUSECLICK` and `MOUSEMOVE`, with the pointer
position the actions read from the stage, and a key press, sent under the name
`event.key` of the key (a key name such as `Escape`, `Enter`, `Backspace` or
`a`; no key is named `MOUSECLICK` or `MOUSEMOVE`). -/
inductive Event where
  | MOUSECLICK (pos : Pos)
  | MOUSEMOVE (pos : Pos)
  | key (k : String)
deriving DecidableEq, Repr

/-- The whole program state: the machine state, the variable `polyline` (the
polyline under construction, `none` for undefined), the stage, `undoManager`
and the variable `selectedLine`. -/
structure World where
  state : MState
  polyline : Option Nat
  stage : Canvas
  undoManager : UndoManager
  selectedLine : Option Nat
deriving DecidableEq, Repr

namespace World

/-- State at start-up: machine in `idle`, no polyline, empty layers, empty history. -/
def init : World :=
  { state := .idle
    polyline := none
    stage := { lines := [], dessin := [], temporaire := [] }
    undoManager := UndoManager.new
    selectedLine := none }

/-- The expression `polyline.points()`; `none` when it raises (undefined polyline). -/
def polylinePoints (w : World) : Option (List Int) :=
  w.polyline.bind (fun id => w.stage.points id)

/-- Action `createLine`. -/
def createLine (pos : Pos) (w : World) : World :=
  let r := w.stage.newLine
    { points := [pos.x, pos.y, pos.x, pos.y], stroke := some "red", strokeWidth := 2 }
  { w with polyline := some r.1, stage := r.2.add .temporaire r.1 }

/-- Action `setLastPoint`. -/
def setLastPoint (pos : Pos) (w : World) : Option World :=
  match w.polyline, w.polylinePoints with
  | some id, some currentPoints =>
    let size : Int := currentPoints.length
    let newPoints := jsSlice currentPoints 0 (size - 2)
    some { w with stage := w.stage.setPoints id (newPoints ++ [pos.x, pos.y]) }
  | _, _ => none

/-- Action `saveLine`. -/
def saveLine (w : World) : Option World :=
  match w.polyline with
  | none => none
  | some id =>
    let stage1 := w.stage.remove id
    match stage1.points id with
    | none => none
    | some currentPoints =>
      let size : Int := currentPoints.length
      let newPoints := jsSlice currentPoints 0 (size - 2)
      let stage2 := stage1.setPoints id newPoints
      let stage3 := stage2.setStroke id (some "black")
      let cmd := Command.AddLineCommand id .dessin
      let r := UndoManager.executeCommand cmd (w.undoManager, stage3)
      some { w with polyline := none, stage := r.2, undoManager := r.1 }

/-- Action `addPoint`. -/
def addPoint (pos : Pos) (w : World) : Option World :=
  match w.polyline, w.polylinePoints with
  | some id, some currentPoints =>
    let newPoints := currentPoints ++ [pos.x, pos.y]
    some { w with stage := w.stage.setPoints id newPoints }
  | _, _ => none

/-- Action `abandon`. -/
def abandon (w : World) : Option World :=
  match w.polyline with
  | none => none
  | some id => some { w with stage := w.stage.remove id }

/-- Action `removeLastPoint`. -/
def removeLastPoint (w : World) : Option World :=
  match w.polyline, w.polylinePoints with
  | some id, some currentPoints =>
    let size : Int := currentPoints.length
    let provisoire := jsSlice currentPoints (size - 2) size
    let oldPoints := jsSlice currentPoints 0 (size - 4)
    some { w with stage := w.stage.setPoints id (oldPoints ++ provisoire) }
  | _, _ => none

/-- Guard `pasPlein`. -/
def pasPlein (w : World) : Option Bool :=
  w.polylinePoints.map (fun pts => decide (pts.length < MAX_POINTS * 2))

/-- Guard `plusDeDeuxPoints`. -/
def plusDeDeuxPoints (w : World) : Option Bool :=
  w.polylinePoints.map (fun pts => decide (pts.length > 6))

/-- Enter a target state. -/
def goto (target : MState) (w : World) : World := { w with state := target }

/-- The transition table of `polylineMachine` with its actions: the program
state an event leaves. Guards are evaluated on the state before the actions
run; an event with no transition in the current state leaves the state as it
is, and so does the event named `*`, which the interpreter refuses before any
transition is taken (see `send`); `none` stands for an exception raised by a
guard or an action. -/
def step (w : World) (e : Event) : Option World :=
  match w.state, e with
  | .idle, .MOUSECLICK pos => some ((w.createLine pos).goto .onePoint)
  | .idle, _ => some w
  | .onePoint, .MOUSECLICK pos => (w.addPoint pos).map (goto .manyPoints)
  | .onePoint, .MOUSEMOVE pos => w.setLastPoint pos
  | .onePoint, .key k =>
    if k = "Escape" then w.abandon.map (goto .idle)
    else some w
  | .manyPoints, .MOUSECLICK pos =>
    match w.pasPlein with
    | none => none
    | some true => w.addPoint pos
    | some false => ((w.addPoint pos).bind saveLine).map (goto .idle)
  | .manyPoints, .MOUSEMOVE pos => w.setLastPoint pos
  | .manyPoints, .key k =>
    if k = "Escape" then w.abandon.map (goto .idle)
    else if k = "Enter" then w.saveLine.map (goto .idle)
    else if k = "Backspace" then
      match w.plusDeDeuxPoints with
      | none => none
      | some true => w.removeLastPoint.map (goto .manyPoints)
      | some false => w.removeLastPoint.map (goto .onePoint)
    else some w

/-- One `polylineService.send(event)`: the interpreter (xstate 4) refuses the
wildcard event type `*` with an exception, before any transition and with the
state left as it is; every other event takes the transition of the table.
`none` stands for an exception. -/
def send (w : World) (e : Event) : Option World :=
  if e = Event.key "*" then none else w.step e

/-- A sequence of events, one after the other: the state they leave, an
exception of the interpreter on the event `*` leaving the state as it is.
`none` stands for an exception raised by a guard or an action. -/
def run (w : World) : List Event → Option World
  | [] => some w
  | e :: es => (w.step e).bind (fun w1 => run w1 es)

/-- Click on the undo button: `undoManager.undo()`. -/
def undo (w : World) : World :=
  let r := UndoManager.undo (w.undoManager, w.stage)
  { w with undoManager := r.1, stage := r.2 }

/-- Click on the redo button: `undoManager.redo()`. -/
def redo (w : World) : World :=
  let r := UndoManager.redo (w.undoManager, w.stage)
  { w with undoManager := r.1, stage := r.2 }

end World

/-! ## Vocabulary of the statements -/

/-- Flat coordinate array of a sequence of points, as stored in a line. -/
def coords : List Pos → List Int
  | [] => []
  | p :: ps => p.x :: p.y :: coords ps

/-- Number of `MOUSECLICK` events of a sequence. -/
def clicks : List Event → Nat
  | [] => 0
  | .MOUSECLICK _ :: es => clicks es + 1
  | _ :: es => clicks es

/-- Whether the event is a pointer event (`MOUSECLICK` or `MOUSEMOVE`). -/
def Event.isPointer : Event → Bool
  | .MOUSECLICK _ => true
  | .MOUSEMOVE _ => true
  | .key _ => false

/-- The pointer moving to each position and clicking there. -/
def moveAndClick : List Pos → List Event
  | [] => []
  | p :: ps => .MOUSEMOVE p :: .MOUSECLICK p :: moveAndClick ps

/-- The state in which the line created next after `w` is under construction
on the temporary layer, with the coordinates `pts`, the machine being in `st`. -/
def World.withTransient (w : World) (st : MState) (pts : List Int) : World :=
  { w with
    state := st
    polyline := some w.stage.lines.length
    stage :=
      { lines := w.stage.lines ++ [{ points := pts, stroke := some "red", strokeWidth := 2 }]
        dessin := w.stage.dessin
        temporaire := w.stage.temporaire ++ [w.stage.lines.length] } }

/-- Consistency of a program state: lines on the layers exist, no line is twice
on the temporary layer, the polyline under construction is not on the drawing
layer, a polyline is under construction whenever the machine is not in `idle`
(4 coordinates in `onePoint`; an even number between 6 and `2 * MAX_POINTS` in
`manyPoints`), and every line of the drawing layer has an even number of
coordinates between 4 and `2 * MAX_POINTS`. -/
structure Inv (w : World) : Prop where
  dessin_lt : ∀ id ∈ w.stage.dessin, id < w.stage.lines.length
  temporaire_lt : ∀ id ∈ w.stage.temporaire, id < w.stage.lines.length
  temporaire_nodup : w.stage.temporaire.Nodup
  polyline_not_drawn : ∀ id, w.polyline = some id → id ∉ w.stage.dessin
  building : w.state ≠ MState.idle → ∃ id pts, w.polyline = some id ∧
    w.stage.points id = some pts ∧
    (w.state = MState.onePoint → pts.length = 4) ∧
    (w.state = MState.manyPoints →
      6 ≤ pts.length ∧ pts.length ≤ 2 * MAX_POINTS ∧ pts.length % 2 = 0)
  committed : ∀ id ∈ w.stage.dessin, ∃ pts, w.stage.points id = some pts ∧
    4 ≤ pts.length ∧ pts.length ≤ 2 * MAX_POINTS ∧ pts.length % 2 = 0

/-! ## The user interface around the machine -/

/-- Setter `line.strokeWidth(width)`. -/
def Canvas.setStrokeWidth (s : Canvas) (id : Nat) (width : Nat) : Canvas :=
  match s.lines[id]? with
  | some l => { s with lines := s.lines.set id { l with strokeWidth := width } }
  | none => s

/-- The calls `undoManager.canUndo()` of `updateButtons`: class `UndoManager`
defines `executeCommand`, `undo` and `redo` only and nothing in the source adds
a property to the object, so the call raises a TypeError (`none`), whatever
the stacks hold. -/
def UndoManager.canUndo (_m : UndoManager) : Option Bool := none

/-- The calls `undoManager.canRedo()` of `updateButtons`: no such method is
defined either, so the call raises a TypeError (`none`). -/
def UndoManager.canRedo (_m : UndoManager) : Option Bool := none

/-- Function `updateButtons`, for the buttons it enables: undo, redo and the
two color buttons. The undo button exists (the script calls
`undoButton.addEventListener` unconditionally), so the first statement calls
`undoManager.canUndo()`; `none` stands for the exception. -/
def World.updateButtons (w : World) : Option (Bool × Bool × Bool × Bool) :=
  match w.undoManager.canUndo, w.undoManager.canRedo with
  | some u, some r => some (u, r, w.selectedLine.isSome, w.selectedLine.isSome)
  | _, _ => none

/-- Click handler of the drawing layer, for a click whose target is the line
`id` of that layer: the line becomes `selectedLine`, every line of the layer
gets stroke width 2 and the selected one 4. The handler ends with a call of
`updateButtons`, after these effects. -/
def World.select (id : Nat) (w : World) : World :=
  if id ∈ w.stage.dessin then
    let stage1 := w.stage.dessin.foldl (fun s l => s.setStrokeWidth l 2) w.stage
    { w with selectedLine := some id, stage := stage1.setStrokeWidth id 4 }
  else w

/-- Click handler of a color button: nothing without a selected line, else a
`ChangeColorCommand` is built for it and executed. The handler ends with a
call of `updateButtons`, after these effects. -/
def World.recolor (color : String) (w : World) : World :=
  match w.selectedLine with
  | none => w
  | some line =>
    let cmd := Command.newChangeColor w.stage (some line) color
    let r := UndoManager.executeCommand cmd (w.undoManager, w.stage)
    { w with undoManager := r.1, stage := r.2 }

/-- What the user can do: an event sent to the machine, a click on the undo or
redo button, a click on a line of the drawing layer, a click on the red or
blue color button. -/
inductive Input where
  | event (e : Event)
  | undo
  | redo
  | select (id : Nat)
  | colorRed
  | colorBlue
deriving DecidableEq, Repr

/-- Effect of one input: the state its handler leaves, also when the handler
ends by an exception of `updateButtons` or of the interpreter on the event
`*`. `none` stands for an exception raised by a guard or an action of the
machine. -/
def World.input (w : World) : Input → Option World
  | .event e => w.step e
  | .undo => some w.undo
  | .redo => some w.redo
  | .select id => some (w.select id)
  | .colorRed => some (w.recolor "red")
  | .colorBlue => some (w.recolor "blue")

/-- A sequence of inputs, one after the other. -/
def World.runInputs (w : World) : List Input → Option World
  | [] => some w
  | i :: is => (w.input i).bind (fun w1 => runInputs w1 is)

/-- Operations of the history manager. -/
inductive HistoryOp where
  | executeCommand (c : Command)
  | undo
  | redo
deriving DecidableEq, Repr

/-- Effect of one operation on the history and the stage. -/
def HistoryOp.apply (h : UndoManager × Canvas) : HistoryOp → UndoManager × Canvas
  | .executeCommand c => UndoManager.executeCommand c h
  | .undo => UndoManager.undo h
  | .redo => UndoManager.redo h

/-- A sequence of operations, one after the other. -/
def HistoryOp.applyAll (h : UndoManager × Canvas) : List HistoryOp → UndoManager × Canvas
  | [] => h
  | op :: ops => applyAll (apply h op) ops

/-- The commands passed to `executeCommand` by a sequence of operations. -/
def HistoryOp.executed : List HistoryOp → List Command
  | [] => []
  | .executeCommand c :: ops => c :: executed ops
  | _ :: ops => executed ops

/-- The history with the identity of the command objects: each command on a
stack is paired with the rank of the `executeCommand` call that received it.
The calls receive pairwise distinct command objects, so the rank names the
object, whatever its fields (two objects may have equal fields). `calls`
counts the calls so far and `last` is the rank of the command executed,
undone or redone last. -/
structure RankedHistory where
  undoStack : Stack (Nat × Command)
  redoStack : Stack (Nat × Command)
  calls : Nat
  last : Option Nat
deriving DecidableEq, Repr

/-- The stacks of a fresh `UndoManager`. -/
def RankedHistory.new : RankedHistory :=
  { undoStack := [], redoStack := [], calls := 0, last := none }

/-- The stack operations of `executeCommand`, `undo` and `redo` on the ranked
commands (the command effects, which act on the stage, left out). -/
def RankedHistory.apply (t : RankedHistory) : HistoryOp → RankedHistory
  | .executeCommand c =>
    { undoStack := Stack.push t.undoStack (t.calls, c)
      redoStack := []
      calls := t.calls + 1
      last := some t.calls }
  | .undo =>
    if Stack.isEmpty t.undoStack then t
    else
      match Stack.pop t.undoStack with
      | none => t
      | some (cmd, rest) =>
        { t with undoStack := rest, redoStack := Stack.push t.redoStack cmd,
                 last := some cmd.1 }
  | .redo =>
    if Stack.isEmpty t.redoStack then t
    else
      match Stack.pop t.redoStack with
      | none => t
      | some (cmd, rest) =>
        { t with undoStack := Stack.push t.undoStack cmd, redoStack := rest,
                 last := some cmd.1 }

/-- A sequence of operations on the ranked commands, one after the other. -/
def RankedHistory.applyAll (t : RankedHistory) : List HistoryOp → RankedHistory
  | [] => t
  | op :: ops => applyAll (t.apply op) ops

/-- The lines of the `AddLineCommand`s of a stack, from the top down. -/
def addedLines : Stack Command → List Nat
  | [] => []
  | .AddLineCommand line _ :: cs => line :: addedLines cs
  | _ :: cs => addedLines cs

/-- Two stages with the same layers, the same number of lines and the same
points on every line; stroke colors and widths may differ. -/
def Canvas.SameShape (s t : Canvas) : Prop :=
  t.dessin = s.dessin ∧ t.temporaire = s.temporaire ∧ t.lines.length = s.lines.length ∧
    ∀ j : Nat, t.points j = s.points j

/-- Consistency of a program state with its history: the state is consistent,
the drawing layer holds the lines of the `AddLineCommand`s of `undoStack`,
oldest first, no line is added by two commands of the stacks, every
`AddLineCommand` targets the drawing layer, and the lines added by the commands
of `redoStack` exist, are not the polyline under construction and have an even
number of coordinates between 4 and `2 * MAX_POINTS`. -/
structure ProgInv (w : World) : Prop where
  base : Inv w
  drawn : w.stage.dessin = (addedLines w.undoManager.undoStack).reverse
  added_nodup :
    (addedLines w.undoManager.undoStack ++ addedLines w.undoManager.redoStack).Nodup
  layers : ∀ id layer, Command.AddLineCommand id layer ∈
    w.undoManager.undoStack ++ w.undoManager.redoStack → layer = LayerId.dessin
  redo_lt : ∀ id ∈ addedLines w.undoManager.redoStack, id < w.stage.lines.length
  polyline_fresh : ∀ id, w.polyline = some id → id ∉ addedLines w.undoManager.redoStack
  redo_bounds : ∀ id ∈ addedLines w.undoManager.redoStack, ∃ pts,
    w.stage.points id = some pts ∧
    4 ≤ pts.length ∧ pts.length ≤ 2 * MAX_POINTS ∧ pts.length % 2 = 0

/-! ## Lemmas on the rendering model -/

namespace Canvas

theorem setStroke_lines_getElem? (s : Canvas) (id : Nat) (c : Option String) (j : Nat) :
    (s.setStroke id c).lines[j]? =
      if id = j then (s.lines[j]?).map (fun l => { l with stroke := c }) else s.lines[j]? := by
  unfold setStroke
  cases h : s.lines[id]? with
  | none =>
    by_cases hj : id = j
    · subst hj; simp [h]
    · simp [hj]
  | some l =>
    have hlt : id < s.lines.length := (List.getElem?_eq_some.mp h).1
    by_cases hj : id = j
    · subst hj; simp [List.getElem?_set_self hlt, h]
    · simp [hj, List.getElem?_set_ne hj]

theorem setStroke_dessin (s : Canvas) (id : Nat) (c : Option String) :
    (s.setStroke id c).dessin = s.dessin := by
  unfold setStroke; cases s.lines[id]? <;> rfl

theorem setStroke_temporaire (s : Canvas) (id : Nat) (c : Option String) :
    (s.setStroke id c).temporaire = s.temporaire := by
  unfold setStroke; cases s.lines[id]? <;> rfl

theorem ext_lines {s t : Canvas} (hl : ∀ j : Nat, s.lines[j]? = t.lines[j]?)
    (hd : s.dessin = t.dessin) (ht : s.temporaire = t.temporaire) : s = t := by
  cases s; cases t
  simp only [Canvas.mk.injEq]
  exact ⟨List.ext_getElem? hl, hd, ht⟩

theorem setStroke_setStroke (s : Canvas) (id : Nat) (a b : Option String) :
    (s.setStroke id a).setStroke id b = s.setStroke id b := by
  apply ext_lines
  · intro j
    simp only [setStroke_lines_getElem?]
    by_cases hj : id = j
    · simp only [hj, if_true]; cases s.lines[j]? <;> rfl
    · simp [hj]
  · simp [setStroke_dessin]
  · simp [setStroke_temporaire]

theorem setStroke_stroke_self (s : Canvas) (id : Nat) :
    s.setStroke id (s.stroke id) = s := by
  apply ext_lines
  · intro j
    simp only [setStroke_lines_getElem?]
    by_cases hj : id = j
    · subst hj
      simp only [if_true, stroke]
      cases h : s.lines[id]? with
      | none => rfl
      | some l => cases l; rfl
    · simp [hj]
  · simp [setStroke_dessin]
  · simp [setStroke_temporaire]

theorem drawing_congr {s t : Canvas} (hl : s.lines = t.lines) (hd : s.dessin = t.dessin) :
    s.drawing = t.drawing := by
  unfold drawing points stroke
  rw [hl, hd]

theorem mem_dessin_of_getParent {s : Canvas} {id : Nat} (h : s.getParent id = some .dessin) :
    id ∈ s.dessin := by
  unfold getParent at h
  by_cases h1 : id ∈ s.dessin
  · exact h1
  · by_cases h2 : id ∈ s.temporaire <;> simp [h1, h2] at h

theorem getParent_of_mem_dessin {s : Canvas} {id : Nat} (h : id ∈ s.dessin) :
    s.getParent id = some .dessin := by
  simp [getParent, h]

theorem remove_lines (s : Canvas) (id : Nat) : (s.remove id).lines = s.lines := by
  unfold remove
  cases s.getParent id with
  | none => rfl
  | some p => cases p <;> rfl

theorem remove_dessin_of_not_mem {s : Canvas} {id : Nat} (h : id ∉ s.dessin) :
    (s.remove id).dessin = s.dessin := by
  unfold remove
  cases hp : s.getParent id with
  | none => rfl
  | some p =>
    cases p with
    | dessin => exact absurd (mem_dessin_of_getParent hp) h
    | temporaire => rfl

theorem remove_dessin_of_mem {s : Canvas} {id : Nat} (h : id ∈ s.dessin) :
    (s.remove id).dessin = s.dessin.erase id := by
  unfold remove
  rw [getParent_of_mem_dessin h]

theorem push_lines (s : Canvas) (layer : LayerId) (id : Nat) :
    (s.push layer id).lines = s.lines := by
  cases layer <;> rfl

theorem add_lines (s : Canvas) (layer : LayerId) (id : Nat) :
    (s.add layer id).lines = s.lines := by
  unfold add
  cases s.getParent id with
  | none => exact push_lines _ _ _
  | some p =>
    by_cases hp : p = layer
    · simp [hp]
    · simp [hp, push_lines, remove_lines]

theorem add_dessin_of_not_mem {s : Canvas} {id : Nat} (h : id ∉ s.dessin) :
    (s.add .dessin id).dessin = s.dessin ++ [id] := by
  unfold add
  cases hp : s.getParent id with
  | none => rfl
  | some p =>
    cases p with
    | dessin => exact absurd (mem_dessin_of_getParent hp) h
    | temporaire =>
      simp only [push, remove, hp]
      simp

theorem add_temporaire_dessin_of_not_mem {s : Canvas} {id : Nat} (h : id ∉ s.dessin) :
    (s.add .temporaire id).dessin = s.dessin := by
  unfold add
  cases hp : s.getParent id with
  | none => rfl
  | some p =>
    cases p with
    | dessin => exact absurd (mem_dessin_of_getParent hp) h
    | temporaire => simp

end Canvas

/-! ## The history manager -/

namespace UndoManager

theorem undo_executeCommand (c : Command) (h : UndoManager × Canvas) :
    undo (executeCommand c h) =
      ({ undoStack := h.1.undoStack, redoStack := [c] }, c.undo (c.execute h.2)) := by
  simp [undo, executeCommand, Stack.push, Stack.isEmpty, Stack.pop]

theorem redo_undo_executeCommand (c : Command) (h : UndoManager × Canvas) :
    redo (undo (executeCommand c h)) =
      ({ undoStack := c :: h.1.undoStack, redoStack := [] },
        c.execute (c.undo (c.execute h.2))) := by
  simp [undo_executeCommand, redo, Stack.push, Stack.isEmpty, Stack.pop]

theorem redo_of_redoStack_nil (h : UndoManager × Canvas) (hr : h.1.redoStack = []) :
    redo h = h := by
  simp [redo, hr, Stack.isEmpty]

theorem undo_of_undoStack_nil (h : UndoManager × Canvas) (hu : h.1.undoStack = []) :
    undo h = h := by
  simp [undo, hu, Stack.isEmpty]

end UndoManager

theorem Canvas.remove_add_dessin {s : Canvas} {id : Nat} (layer : LayerId)
    (h : id ∉ s.dessin) : ((s.add layer id).remove id).dessin = s.dessin := by
  cases layer with
  | dessin =>
    have hd := Canvas.add_dessin_of_not_mem h
    have hm : id ∈ (s.add .dessin id).dessin := by rw [hd]; simp
    rw [Canvas.remove_dessin_of_mem hm, hd, List.erase_append_right _ h]
    simp
  | temporaire =>
    have hd := Canvas.add_temporaire_dessin_of_not_mem h
    have hm : id ∉ (s.add .temporaire id).dessin := by rw [hd]; exact h
    rw [Canvas.remove_dessin_of_not_mem hm, hd]

theorem Canvas.remove_add_drawing {s : Canvas} {id : Nat} (layer : LayerId)
    (h : id ∉ s.dessin) : ((s.add layer id).remove id).drawing = s.drawing := by
  apply Canvas.drawing_congr
  · rw [Canvas.remove_lines, Canvas.add_lines]
  · exact Canvas.remove_add_dessin layer h

theorem Canvas.add_remove_add_drawing {s : Canvas} {id : Nat} (layer : LayerId)
    (h : id ∉ s.dessin) :
    (((s.add layer id).remove id).add layer id).drawing = (s.add layer id).drawing := by
  have hrem := Canvas.remove_add_dessin layer h
  have hnot : id ∉ ((s.add layer id).remove id).dessin := by rw [hrem]; exact h
  apply Canvas.drawing_congr
  · simp [Canvas.remove_lines, Canvas.add_lines]
  · cases layer with
    | dessin =>
      rw [Canvas.add_dessin_of_not_mem hnot, hrem, Canvas.add_dessin_of_not_mem h]
    | temporaire =>
      rw [Canvas.add_temporaire_dessin_of_not_mem hnot, hrem,
        Canvas.add_temporaire_dessin_of_not_mem h]

/-- C1, as stated, fails: on a stage whose drawing layer holds one black line,
executing then undoing a `ChangeColorCommand` whose recorded old color is blue
leaves the line blue, and executing then undoing an `AddLineCommand` for the
line already drawn leaves the drawing layer empty. -/
theorem executeCommand_undo_not_identity :
    (UndoManager.undo (UndoManager.executeCommand
        (Command.ChangeColorCommand (some 0) "red" (some "blue"))
        (UndoManager.new,
          { lines := [⟨[10, 10, 20, 20], some "black", 2⟩],
            dessin := [0], temporaire := [] }))).2.drawing
      = [(0, some [10, 10, 20, 20], some "blue")] ∧
    (UndoManager.undo (UndoManager.executeCommand
        (Command.AddLineCommand 0 LayerId.dessin)
        (UndoManager.new,
          { lines := [⟨[10, 10, 20, 20], some "black", 2⟩],
            dessin := [0], temporaire := [] }))).2.drawing = [] ∧
    Canvas.drawing { lines := [⟨[10, 10, 20, 20], some "black", 2⟩],
                     dessin := [0], temporaire := [] }
      = [(0, some [10, 10, 20, 20], some "black")] :=
  ⟨by decide, by decide, by decide⟩

/-- C1 (amended): for every `AddLineCommand` whose line is not on the drawing
layer and every `ChangeColorCommand` whose recorded old color is the current
stroke color of its line (or whose line is absent), `executeCommand(c)`
followed by `undo()` leaves the drawing surface (shapes of the drawing layer
in order, their points and stroke colors) as it was before. -/
theorem executeCommand_undo_drawing (c : Command) (h : UndoManager × Canvas)
    (hadd : ∀ line layer, c = Command.AddLineCommand line layer → line ∉ h.2.dessin)
    (hcol : ∀ line newColor oldColor,
      c = Command.ChangeColorCommand (some line) newColor oldColor →
        oldColor = h.2.stroke line) :
    (UndoManager.undo (UndoManager.executeCommand c h)).2.drawing = h.2.drawing := by
  rw [UndoManager.undo_executeCommand]
  cases c with
  | AddLineCommand line layer =>
    exact Canvas.remove_add_drawing layer (hadd line layer rfl)
  | ChangeColorCommand line newColor oldColor =>
    cases line with
    | none => rfl
    | some line =>
      have ho := hcol line newColor oldColor rfl
      simp only [Command.undo, Command.execute]
      rw [Canvas.setStroke_setStroke, ho, Canvas.setStroke_stroke_self]

/-- Witness of C1 (amended): recoloring in red a black line of the drawing
layer, with the command built in that state, and undoing. -/
theorem executeCommand_undo_drawing_witness :
    (some "black" =
      Canvas.stroke { lines := [⟨[10, 10, 20, 20], some "black", 2⟩],
                      dessin := [0], temporaire := [] } 0) ∧
    (UndoManager.undo (UndoManager.executeCommand
        (Command.ChangeColorCommand (some 0) "red" (some "black"))
        (UndoManager.new,
          { lines := [⟨[10, 10, 20, 20], some "black", 2⟩],
            dessin := [0], temporaire := [] }))).2.drawing
      = Canvas.drawing { lines := [⟨[10, 10, 20, 20], some "black", 2⟩],
                         dessin := [0], temporaire := [] } :=
  ⟨by decide,
    executeCommand_undo_drawing _ _ (fun _ _ hc => by cases hc)
      (fun _ _ _ hc => by cases hc; decide)⟩

/-- C2, as stated, fails: with two lines drawn, an `AddLineCommand` for the
first one leaves the order `[0, 1]` when executed (the layer is already its
parent), but undo then redo puts it back last, giving `[1, 0]`. -/
theorem executeCommand_undo_redo_not_identity :
    (UndoManager.executeCommand (Command.AddLineCommand 0 LayerId.dessin)
        (UndoManager.new,
          { lines := [⟨[10, 10, 20, 20], some "black", 2⟩, ⟨[0, 0, 5, 5], some "black", 2⟩],
            dessin := [0, 1], temporaire := [] })).2.dessin = [0, 1] ∧
    (UndoManager.redo (UndoManager.undo (UndoManager.executeCommand
        (Command.AddLineCommand 0 LayerId.dessin)
        (UndoManager.new,
          { lines := [⟨[10, 10, 20, 20], some "black", 2⟩, ⟨[0, 0, 5, 5], some "black", 2⟩],
            dessin := [0, 1], temporaire := [] })))).2.dessin = [1, 0] ∧
    (UndoManager.redo (UndoManager.undo (UndoManager.executeCommand
        (Command.AddLineCommand 0 LayerId.dessin)
        (UndoManager.new,
          { lines := [⟨[10, 10, 20, 20], some "black", 2⟩, ⟨[0, 0, 5, 5], some "black", 2⟩],
            dessin := [0, 1], temporaire := [] })))).2.drawing ≠
    (UndoManager.executeCommand (Command.AddLineCommand 0 LayerId.dessin)
        (UndoManager.new,
          { lines := [⟨[10, 10, 20, 20], some "black", 2⟩, ⟨[0, 0, 5, 5], some "black", 2⟩],
            dessin := [0, 1], temporaire := [] })).2.drawing :=
  ⟨by decide, by decide, by decide⟩

/-- C2 (amended): for every `ChangeColorCommand`, and every `AddLineCommand`
whose line is not already on the drawing layer, `executeCommand(c); undo();
redo()` leaves the drawing surface (shapes of the drawing layer in order, their
points and stroke colors) as it was right after `executeCommand(c)`. -/
theorem executeCommand_undo_redo_drawing (c : Command) (h : UndoManager × Canvas)
    (hadd : ∀ line layer, c = Command.AddLineCommand line layer → line ∉ h.2.dessin) :
    (UndoManager.redo (UndoManager.undo (UndoManager.executeCommand c h))).2.drawing
      = (UndoManager.executeCommand c h).2.drawing := by
  rw [UndoManager.redo_undo_executeCommand]
  cases c with
  | AddLineCommand line layer =>
    exact Canvas.add_remove_add_drawing layer (hadd line layer rfl)
  | ChangeColorCommand line newColor oldColor =>
    cases line with
    | none => rfl
    | some line =>
      simp only [Command.undo, Command.execute, UndoManager.executeCommand]
      rw [Canvas.setStroke_setStroke, Canvas.setStroke_setStroke]

/-- Witness of C2 (amended): adding to the drawing layer a line that sits on
the temporary layer, then undo and redo. -/
theorem executeCommand_undo_redo_drawing_witness :
    (0 ∉ ([] : List Nat)) ∧
    (UndoManager.redo (UndoManager.undo (UndoManager.executeCommand
        (Command.AddLineCommand 0 LayerId.dessin)
        (UndoManager.new,
          { lines := [⟨[10, 10, 20, 20], some "black", 2⟩],
            dessin := [], temporaire := [0] })))).2.drawing
      = (UndoManager.executeCommand (Command.AddLineCommand 0 LayerId.dessin)
        (UndoManager.new,
          { lines := [⟨[10, 10, 20, 20], some "black", 2⟩],
            dessin := [], temporaire := [0] })).2.drawing :=
  ⟨by decide,
    executeCommand_undo_redo_drawing _ _ (fun _ _ hc => by cases hc; decide)⟩

/-- C3: after `executeCommand(c)` the stage is the one produced by one run of
`c.execute()`, `c` is on top of `undoStack` above the former content,
`redoStack` is empty, and a following `redo()` changes nothing; in particular
`executeCommand(c1); executeCommand(c2); undo(); executeCommand(c3); redo()`
ends in the same state as without the final `redo()`. -/
theorem executeCommand_clears_redo (c c1 c2 c3 : Command) (h : UndoManager × Canvas) :
    (UndoManager.executeCommand c h).2 = c.execute h.2 ∧
    Stack.pop (UndoManager.executeCommand c h).1.undoStack = some (c, h.1.undoStack) ∧
    Stack.isEmpty (UndoManager.executeCommand c h).1.redoStack = true ∧
    UndoManager.redo (UndoManager.executeCommand c h) = UndoManager.executeCommand c h ∧
    UndoManager.redo (UndoManager.executeCommand c3 (UndoManager.undo
        (UndoManager.executeCommand c2 (UndoManager.executeCommand c1 h))))
      = UndoManager.executeCommand c3 (UndoManager.undo
        (UndoManager.executeCommand c2 (UndoManager.executeCommand c1 h))) := by
  refine ⟨rfl, rfl, rfl, ?_, ?_⟩
  · exact UndoManager.redo_of_redoStack_nil _ rfl
  · exact UndoManager.redo_of_redoStack_nil _ rfl

/-! ## Array slices -/

theorem jsSlice_zero {α : Type} (xs : List α) (k : Nat) (hk : k ≤ xs.length) :
    jsSlice xs 0 ((xs.length : Int) - k) = xs.take (xs.length - k) := by
  unfold jsSlice
  have h1 : ¬ ((xs.length : Int) - k < 0) := by omega
  simp only [lt_self_iff_false, if_false, h1]
  have h2 : min (0 : Int) (xs.length : Int) = 0 := by omega
  have h3 : min ((xs.length : Int) - k) (xs.length : Int) = (xs.length : Int) - k := by omega
  rw [h2, h3]
  have h4 : ((xs.length : Int) - k - 0).toNat = xs.length - k := by omega
  rw [h4]
  simp

theorem jsSlice_to_end {α : Type} (xs : List α) (k : Nat) (hk : k ≤ xs.length) :
    jsSlice xs ((xs.length : Int) - k) (xs.length : Int) = xs.drop (xs.length - k) := by
  unfold jsSlice
  have h1 : ¬ ((xs.length : Int) - k < 0) := by omega
  have h0 : ¬ ((xs.length : Int) < 0) := by omega
  simp only [if_false, h1, h0]
  have h3 : min ((xs.length : Int) - k) (xs.length : Int) = (xs.length : Int) - k := by omega
  rw [h3, min_self]
  have h4 : ((xs.length : Int) - k).toNat = xs.length - k := by omega
  have h5 : ((xs.length : Int) - ((xs.length : Int) - k)).toNat = k := by omega
  rw [h4, h5]
  apply List.take_of_length_le
  simp
  omega

theorem jsSlice_strip_last {α : Type} (q : List α) (a b : α) :
    jsSlice (q ++ [a, b]) 0 (((q ++ [a, b]).length : Int) - 2) = q := by
  have h := jsSlice_zero (q ++ [a, b]) 2 (by simp)
  simp only [Nat.cast_ofNat] at h
  rw [h]
  simp

theorem jsSlice_strip_two {α : Type} (q : List α) (c d a b : α) :
    jsSlice (q ++ [c, d, a, b]) 0 (((q ++ [c, d, a, b]).length : Int) - 4) = q := by
  have h := jsSlice_zero (q ++ [c, d, a, b]) 4 (by simp)
  simp only [Nat.cast_ofNat] at h
  rw [h]
  simp

theorem jsSlice_last {α : Type} (q : List α) (a b : α) :
    jsSlice (q ++ [a, b]) (((q ++ [a, b]).length : Int) - 2) ((q ++ [a, b]).length : Int)
      = [a, b] := by
  have h := jsSlice_to_end (q ++ [a, b]) 2 (by simp)
  simp only [Nat.cast_ofNat] at h
  rw [h]
  simp

theorem coords_append (ps qs : List Pos) : coords (ps ++ qs) = coords ps ++ coords qs := by
  induction ps with
  | nil => rfl
  | cons p ps ih => simp [coords, ih]

theorem length_coords (ps : List Pos) : (coords ps).length = 2 * ps.length := by
  induction ps with
  | nil => rfl
  | cons p ps ih => simp [coords, ih]; omega

/-! ## Attribute setters -/

namespace Canvas

theorem setPoints_dessin (s : Canvas) (id : Nat) (pts : List Int) :
    (s.setPoints id pts).dessin = s.dessin := by
  unfold setPoints; cases s.lines[id]? <;> rfl

theorem setPoints_temporaire (s : Canvas) (id : Nat) (pts : List Int) :
    (s.setPoints id pts).temporaire = s.temporaire := by
  unfold setPoints; cases s.lines[id]? <;> rfl

theorem setPoints_lines_length (s : Canvas) (id : Nat) (pts : List Int) :
    (s.setPoints id pts).lines.length = s.lines.length := by
  unfold setPoints; cases s.lines[id]? <;> simp

theorem setPoints_lines_getElem? (s : Canvas) (id : Nat) (pts : List Int) (j : Nat) :
    (s.setPoints id pts).lines[j]? =
      if id = j then (s.lines[j]?).map (fun l => { l with points := pts }) else s.lines[j]? := by
  unfold setPoints
  cases h : s.lines[id]? with
  | none =>
    by_cases hj : id = j
    · subst hj; simp [h]
    · simp [hj]
  | some l =>
    have hlt : id < s.lines.length := (List.getElem?_eq_some.mp h).1
    by_cases hj : id = j
    · subst hj; simp [List.getElem?_set_self hlt, h]
    · simp [hj, List.getElem?_set_ne hj]

theorem setPoints_points_self {s : Canvas} {id : Nat} {l : Line} (pts : List Int)
    (h : s.lines[id]? = some l) : (s.setPoints id pts).points id = some pts := by
  simp [points, setPoints_lines_getElem?, h]

theorem setPoints_points_of_ne (s : Canvas) {id j : Nat} (pts : List Int) (h : id ≠ j) :
    (s.setPoints id pts).points j = s.points j := by
  simp [points, setPoints_lines_getElem?, h]

theorem setPoints_stroke (s : Canvas) (id j : Nat) (pts : List Int) :
    (s.setPoints id pts).stroke j = s.stroke j := by
  simp only [stroke, setPoints_lines_getElem?]
  by_cases hj : id = j
  · simp only [hj, if_true]; cases s.lines[j]? <;> rfl
  · simp [hj]

end Canvas

/-! ## Single transitions -/

namespace World

theorem polylinePoints_eq {w : World} {id : Nat} {l : Line}
    (hp : w.polyline = some id) (hl : w.stage.lines[id]? = some l) :
    w.polylinePoints = some l.points := by
  simp [polylinePoints, hp, Canvas.points, hl]

theorem setLastPoint_eq {w : World} {id : Nat} {l : Line} (q : List Int) (a b : Int)
    (pos : Pos) (hp : w.polyline = some id) (hl : w.stage.lines[id]? = some l)
    (hpts : l.points = q ++ [a, b]) :
    w.setLastPoint pos = some { w with stage := w.stage.setPoints id (q ++ [pos.x, pos.y]) } := by
  unfold setLastPoint
  rw [polylinePoints_eq hp hl, hp, hpts]
  simp only [jsSlice_strip_last]

theorem addPoint_eq {w : World} {id : Nat} {l : Line} (pos : Pos)
    (hp : w.polyline = some id) (hl : w.stage.lines[id]? = some l) :
    w.addPoint pos
      = some { w with stage := w.stage.setPoints id (l.points ++ [pos.x, pos.y]) } := by
  unfold addPoint
  rw [polylinePoints_eq hp hl, hp]

theorem removeLastPoint_eq {w : World} {id : Nat} {l : Line} (q : List Int) (c d a b : Int)
    (hp : w.polyline = some id) (hl : w.stage.lines[id]? = some l)
    (hpts : l.points = q ++ [c, d, a, b]) :
    w.removeLastPoint = some { w with stage := w.stage.setPoints id (q ++ [a, b]) } := by
  unfold removeLastPoint
  rw [polylinePoints_eq hp hl, hp, hpts]
  simp only [jsSlice_strip_two]
  have h := jsSlice_last (q ++ [c, d]) a b
  simp only [List.append_assoc, List.cons_append, List.nil_append] at h
  rw [h]

end World

/-! ## The transition table, state by state -/

namespace World

theorem step_idle_click {w : World} (h : w.state = MState.idle) (pos : Pos) :
    w.step (Event.MOUSECLICK pos) = some ((w.createLine pos).goto MState.onePoint) := by
  unfold step; rw [h]

theorem step_idle_move {w : World} (h : w.state = MState.idle) (pos : Pos) :
    w.step (Event.MOUSEMOVE pos) = some w := by
  unfold step; rw [h]

theorem step_idle_key {w : World} (h : w.state = MState.idle) (k : String) :
    w.step (Event.key k) = some w := by
  unfold step; rw [h]

theorem step_onePoint_click {w : World} (h : w.state = MState.onePoint) (pos : Pos) :
    w.step (Event.MOUSECLICK pos) = (w.addPoint pos).map (goto MState.manyPoints) := by
  unfold step; rw [h]

theorem step_onePoint_move {w : World} (h : w.state = MState.onePoint) (pos : Pos) :
    w.step (Event.MOUSEMOVE pos) = w.setLastPoint pos := by
  unfold step; rw [h]

theorem step_onePoint_key {w : World} (h : w.state = MState.onePoint) (k : String) :
    w.step (Event.key k)
      = if k = "Escape" then w.abandon.map (goto MState.idle) else some w := by
  unfold step; rw [h]

theorem step_manyPoints_click {w : World} (h : w.state = MState.manyPoints) (pos : Pos) :
    w.step (Event.MOUSECLICK pos) =
      match w.pasPlein with
      | none => none
      | some true => w.addPoint pos
      | some false => ((w.addPoint pos).bind saveLine).map (goto MState.idle) := by
  unfold step; rw [h]

theorem step_manyPoints_move {w : World} (h : w.state = MState.manyPoints) (pos : Pos) :
    w.step (Event.MOUSEMOVE pos) = w.setLastPoint pos := by
  unfold step; rw [h]

theorem step_manyPoints_key {w : World} (h : w.state = MState.manyPoints) (k : String) :
    w.step (Event.key k) =
      if k = "Escape" then w.abandon.map (goto MState.idle)
      else if k = "Enter" then w.saveLine.map (goto MState.idle)
      else if k = "Backspace" then
        match w.plusDeDeuxPoints with
        | none => none
        | some true => w.removeLastPoint.map (goto MState.manyPoints)
        | some false => w.removeLastPoint.map (goto MState.onePoint)
      else some w := by
  unfold step; rw [h]

theorem send_eq_step (w : World) {e : Event} (h : e ≠ Event.key "*") :
    w.send e = w.step e := by
  simp [send, h]

theorem send_click (w : World) (pos : Pos) :
    w.send (Event.MOUSECLICK pos) = w.step (Event.MOUSECLICK pos) :=
  send_eq_step w (by intro h; cases h)

theorem send_move (w : World) (pos : Pos) :
    w.send (Event.MOUSEMOVE pos) = w.step (Event.MOUSEMOVE pos) :=
  send_eq_step w (by intro h; cases h)

theorem send_key (w : World) {k : String} (h : k ≠ "*") :
    w.send (Event.key k) = w.step (Event.key k) :=
  send_eq_step w (by intro h1; exact h (Event.key.inj h1))

theorem send_wildcard (w : World) :
    w.send (Event.key "*") = none ∧ w.step (Event.key "*") = some w := by
  refine ⟨by simp [send], ?_⟩
  unfold step
  cases w.state <;> simp

end World

/-- C7: in `manyPoints`, with `r >= 2` real points followed by the provisional
point, `Backspace` removes exactly the last real point (the first `r - 1` real
points and the provisional point stay, in order), and the next state is
`manyPoints` when `r > 2` and `onePoint` otherwise. After three clicks, a
first `Backspace` leaves `manyPoints` with 2 real points and a second one
leaves `onePoint` with 1 real point. -/
theorem backspace_removes_last_real (w : World) (id : Nat) (l : Line)
    (real : List Pos) (prov : Pos)
    (hst : w.state = MState.manyPoints) (hp : w.polyline = some id)
    (hl : w.stage.lines[id]? = some l)
    (hpts : l.points = coords (real ++ [prov])) (hr : 2 ≤ real.length) :
    w.send (Event.key "Backspace")
      = some { w with
          state := if 2 < real.length then MState.manyPoints else MState.onePoint
          stage := w.stage.setPoints id (coords (real.dropLast ++ [prov])) } ∧
    (w.stage.setPoints id (coords (real.dropLast ++ [prov]))).points id
      = some (coords (real.dropLast ++ [prov])) ∧
    (∀ p1 p2 p3 : Pos, ∃ w1 w2 pts1 pts2,
      World.init.run [Event.MOUSECLICK p1, Event.MOUSECLICK p2, Event.MOUSECLICK p3,
        Event.key "Backspace"] = some w1 ∧
      w1.state = MState.manyPoints ∧ w1.polylinePoints = some pts1 ∧
      pts1.length = 2 * (2 + 1) ∧
      w1.send (Event.key "Backspace") = some w2 ∧
      w2.state = MState.onePoint ∧ w2.polylinePoints = some pts2 ∧
      pts2.length = 2 * (1 + 1)) := by
  have hne : real ≠ [] := by
    intro h; rw [h] at hr; simp at hr
  obtain ⟨front, last, hreal⟩ : ∃ front last, real = front ++ [last] :=
    ⟨real.dropLast, real.getLast hne, (List.dropLast_append_getLast hne).symm⟩
  subst hreal
  have hpts2 : l.points = coords front ++ [last.x, last.y, prov.x, prov.y] := by
    rw [hpts]; simp [coords_append, coords]
  have hlen : l.points.length = 2 * front.length + 4 := by
    rw [hpts2]; simp [length_coords]
  have hfront : 1 ≤ front.length := by simpa using hr
  refine ⟨?_, Canvas.setPoints_points_self _ hl, ?_⟩
  · have hrem := World.removeLastPoint_eq (coords front) last.x last.y prov.x prov.y hp hl hpts2
    have hq : coords (front ++ [prov]) = coords front ++ [prov.x, prov.y] := by
      simp [coords_append, coords]
    simp only [List.dropLast_concat, hq, List.length_append, List.length_singleton]
    rw [World.send_key w (by decide), World.step_manyPoints_key hst]
    simp only [World.plusDeDeuxPoints, World.polylinePoints_eq hp hl, hrem, Option.map]
    by_cases h2 : 1 < front.length
    · have h6 : l.points.length > 6 := by omega
      have h2b : 2 < front.length + 1 := by omega
      simp [h6, h2b, World.goto]
    · have h6 : ¬ l.points.length > 6 := by omega
      have h2b : ¬ 2 < front.length + 1 := by omega
      simp [h6, h2b, World.goto]
  · intro p1 p2 p3
    simp [World.run, World.step, World.send, World.init, World.createLine, World.goto, World.addPoint,
      World.polylinePoints, Canvas.newLine, Canvas.add, Canvas.getParent, Canvas.push,
      Canvas.points, Canvas.setPoints, World.pasPlein, MAX_POINTS, World.plusDeDeuxPoints,
      World.removeLastPoint, jsSlice, UndoManager.new]

/-- Witness of C7: three real points and the provisional one; `Backspace`
drops the third real point and stays in `manyPoints`. -/
theorem backspace_removes_last_real_witness :
    World.send
        { state := MState.manyPoints, polyline := some 0,
          stage := { lines := [⟨[1, 1, 2, 2, 3, 3, 4, 4], some "red", 2⟩], dessin := [],
                     temporaire := [0] },
          undoManager := UndoManager.new, selectedLine := none }
        (Event.key "Backspace")
      = some
        { state := MState.manyPoints, polyline := some 0,
          stage := { lines := [⟨[1, 1, 2, 2, 4, 4], some "red", 2⟩], dessin := [],
                     temporaire := [0] },
          undoManager := UndoManager.new, selectedLine := none } :=
  (backspace_removes_last_real
    { state := MState.manyPoints, polyline := some 0,
      stage := { lines := [⟨[1, 1, 2, 2, 3, 3, 4, 4], some "red", 2⟩], dessin := [],
                 temporaire := [0] },
      undoManager := UndoManager.new, selectedLine := none }
    0 ⟨[1, 1, 2, 2, 3, 3, 4, 4], some "red", 2⟩ [⟨1, 1⟩, ⟨2, 2⟩, ⟨3, 3⟩] ⟨4, 4⟩
    rfl rfl rfl rfl (by decide)).1

/-- C8: in `onePoint` and in `manyPoints`, with the transient polyline made of
its real points followed by the provisional point, `MOUSEMOVE` keeps the
machine state, keeps every real point, and puts the pointer position in the
last point; the history, the content of both layers and every other line are
untouched. -/
theorem move_sets_provisional (w : World) (id : Nat) (l : Line)
    (real : List Pos) (prov pos : Pos)
    (hst : w.state = MState.onePoint ∨ w.state = MState.manyPoints)
    (hp : w.polyline = some id) (hl : w.stage.lines[id]? = some l)
    (hpts : l.points = coords (real ++ [prov])) :
    ∃ w1, w.send (Event.MOUSEMOVE pos) = some w1 ∧
      w1.state = w.state ∧ w1.polyline = w.polyline ∧
      w1.polylinePoints = some (coords (real ++ [pos])) ∧
      w1.undoManager = w.undoManager ∧
      w1.stage.dessin = w.stage.dessin ∧ w1.stage.temporaire = w.stage.temporaire ∧
      w1.stage.lines.length = w.stage.lines.length ∧
      w1.stage.lines[id]? = some { l with points := coords (real ++ [pos]) } ∧
      (∀ j : Nat, j ≠ id → w1.stage.lines[j]? = w.stage.lines[j]?) := by
  have hpts2 : l.points = coords real ++ [prov.x, prov.y] := by
    rw [hpts]; simp [coords_append, coords]
  have hq : coords (real ++ [pos]) = coords real ++ [pos.x, pos.y] := by
    simp [coords_append, coords]
  have hset := World.setLastPoint_eq (coords real) prov.x prov.y pos hp hl hpts2
  refine ⟨{ w with stage := w.stage.setPoints id (coords real ++ [pos.x, pos.y]) },
    ?_, rfl, rfl, ?_, rfl, ?_, ?_, ?_, ?_, ?_⟩
  · rcases hst with h | h
    · rw [World.send_move, World.step_onePoint_move h, hset]
    · rw [World.send_move, World.step_manyPoints_move h, hset]
  · simp [World.polylinePoints, hp, hq, Canvas.setPoints_points_self _ hl]
  · exact Canvas.setPoints_dessin _ _ _
  · exact Canvas.setPoints_temporaire _ _ _
  · exact Canvas.setPoints_lines_length _ _ _
  · simp [Canvas.setPoints_lines_getElem?, hl, hq]
  · intro j hj
    have hj2 : id ≠ j := fun h => hj h.symm
    simp [Canvas.setPoints_lines_getElem?, hj2]

/-- Witness of C8: a move to (7, 8) after one click at (1, 2). -/
theorem move_sets_provisional_witness :
    ∃ w1, World.send
        { state := MState.onePoint, polyline := some 0,
          stage := { lines := [⟨[1, 2, 1, 2], some "red", 2⟩], dessin := [],
                     temporaire := [0] },
          undoManager := UndoManager.new, selectedLine := none }
        (Event.MOUSEMOVE ⟨7, 8⟩) = some w1 ∧
      w1.state = MState.onePoint ∧ w1.polylinePoints = some [1, 2, 7, 8] := by
  obtain ⟨w1, h1, h2, _, h3, _⟩ := move_sets_provisional
    { state := MState.onePoint, polyline := some 0,
      stage := { lines := [⟨[1, 2, 1, 2], some "red", 2⟩], dessin := [],
                 temporaire := [0] },
      undoManager := UndoManager.new, selectedLine := none }
    0 ⟨[1, 2, 1, 2], some "red", 2⟩ [⟨1, 2⟩] ⟨1, 2⟩ ⟨7, 8⟩ (Or.inl rfl) rfl rfl rfl
  exact ⟨w1, h1, h2, h3⟩

theorem Canvas.remove_eq_of_not_mem_dessin {s : Canvas} {id : Nat} (h : id ∉ s.dessin) :
    s.remove id = { s with temporaire := s.temporaire.erase id } := by
  unfold Canvas.remove Canvas.getParent
  by_cases ht : id ∈ s.temporaire
  · simp [h, ht]
  · simp [h, ht, List.erase_of_not_mem ht]

theorem World.saveLine_eq {w : World} {id : Nat} {l : Line} (q : List Int) (a b : Int)
    (hp : w.polyline = some id) (hl : w.stage.lines[id]? = some l)
    (hpts : l.points = q ++ [a, b]) (hd : id ∉ w.stage.dessin)
    (hn : w.stage.temporaire.Nodup) :
    w.saveLine = some
      { w with
        polyline := none
        stage :=
          { lines := w.stage.lines.set id { l with points := q, stroke := some "black" }
            dessin := w.stage.dessin ++ [id]
            temporaire := w.stage.temporaire.erase id }
        undoManager :=
          { undoStack := Stack.push w.undoManager.undoStack
              (Command.AddLineCommand id LayerId.dessin)
            redoStack := [] } } := by
  have hlt : id < w.stage.lines.length := (List.getElem?_eq_some.mp hl).1
  have hnot : id ∉ w.stage.temporaire.erase id := by
    intro hm
    exact ((List.Nodup.mem_erase_iff hn).mp hm).1 rfl
  unfold World.saveLine
  rw [hp]
  simp only [Canvas.remove_eq_of_not_mem_dessin hd, Canvas.points, hl, Option.map, hpts,
    jsSlice_strip_last, Canvas.setPoints, Canvas.setStroke, List.getElem?_set_self hlt,
    List.set_set, UndoManager.executeCommand, Command.execute, Canvas.add, Canvas.getParent,
    hd, hnot, if_false, Canvas.push]

/-- C10: in `manyPoints`, with real points `q1..qr` followed by the provisional
point on a transient polyline that is not on the drawing layer (the temporary
layer holding no line twice), `Enter` commits: the line keeps exactly the real
points, its stroke becomes black, it leaves the temporary layer and is
appended to the drawing layer, one `AddLineCommand` for it is pushed on
`undoStack`, `redoStack` becomes empty, the variable `polyline` is cleared and
the next state is `idle`. -/
theorem enter_commits (w : World) (id : Nat) (l : Line) (real : List Pos) (prov : Pos)
    (hst : w.state = MState.manyPoints) (hp : w.polyline = some id)
    (hl : w.stage.lines[id]? = some l)
    (hpts : l.points = coords (real ++ [prov]))
    (hd : id ∉ w.stage.dessin) (hn : w.stage.temporaire.Nodup) :
    w.send (Event.key "Enter") = some
      { state := MState.idle
        polyline := none
        stage :=
          { lines := w.stage.lines.set id
              { points := coords real, stroke := some "black", strokeWidth := l.strokeWidth }
            dessin := w.stage.dessin ++ [id]
            temporaire := w.stage.temporaire.erase id }
        undoManager :=
          { undoStack := Stack.push w.undoManager.undoStack
              (Command.AddLineCommand id LayerId.dessin)
            redoStack := [] }
        selectedLine := w.selectedLine } ∧
    id ∉ w.stage.temporaire.erase id ∧
    (w.stage.lines.set id
      { points := coords real, stroke := some "black", strokeWidth := l.strokeWidth })[id]?
      = some { points := coords real, stroke := some "black", strokeWidth := l.strokeWidth } := by
  have hlt : id < w.stage.lines.length := (List.getElem?_eq_some.mp hl).1
  have hpts2 : l.points = coords real ++ [prov.x, prov.y] := by
    rw [hpts]; simp [coords_append, coords]
  refine ⟨?_, ?_, List.getElem?_set_self hlt⟩
  · rw [World.send_key w (by decide), World.step_manyPoints_key hst]
    simp [World.saveLine_eq (coords real) prov.x prov.y hp hl hpts2 hd hn, World.goto]
  · intro hm
    exact ((List.Nodup.mem_erase_iff hn).mp hm).1 rfl

/-- Witness of C10: `Enter` with two real points (1,1), (2,2) and the provisional
point (3,3), above a history holding one undone command. -/
theorem enter_commits_witness :
    World.send
        { state := MState.manyPoints, polyline := some 0,
          stage := { lines := [⟨[1, 1, 2, 2, 3, 3], some "red", 2⟩], dessin := [],
                     temporaire := [0] },
          undoManager :=
            { undoStack := [], redoStack := [Command.ChangeColorCommand none "red" none] },
          selectedLine := none }
        (Event.key "Enter")
      = some
        { state := MState.idle, polyline := none,
          stage := { lines := [⟨[1, 1, 2, 2], some "black", 2⟩], dessin := [0],
                     temporaire := [] },
          undoManager :=
            { undoStack := [Command.AddLineCommand 0 LayerId.dessin], redoStack := [] },
          selectedLine := none } :=
  (enter_commits
    { state := MState.manyPoints, polyline := some 0,
      stage := { lines := [⟨[1, 1, 2, 2, 3, 3], some "red", 2⟩], dessin := [],
                 temporaire := [0] },
      undoManager :=
        { undoStack := [], redoStack := [Command.ChangeColorCommand none "red" none] },
      selectedLine := none }
    0 ⟨[1, 1, 2, 2, 3, 3], some "red", 2⟩ [⟨1, 1⟩, ⟨2, 2⟩] ⟨3, 3⟩
    rfl rfl rfl rfl (by decide) (by decide)).1

/-! ## Consistency is kept by every transition -/

theorem exists_append_pair {α : Type} (xs : List α) (h : 2 ≤ xs.length) :
    ∃ q a b, xs = q ++ [a, b] ∧ q.length + 2 = xs.length := by
  have h1 : xs ≠ [] := by intro h0; rw [h0] at h; simp at h
  have e1 := (List.dropLast_append_getLast h1).symm
  have hl1 : xs.dropLast.length = xs.length - 1 := by simp
  have h2 : xs.dropLast ≠ [] := by
    intro h0; rw [h0] at hl1; simp at hl1; omega
  have e2 := (List.dropLast_append_getLast h2).symm
  have hl2 : xs.dropLast.dropLast.length = xs.length - 2 := by simp; omega
  refine ⟨xs.dropLast.dropLast, xs.dropLast.getLast h2, xs.getLast h1, ?_, by omega⟩
  calc xs = xs.dropLast ++ [xs.getLast h1] := e1
    _ = (xs.dropLast.dropLast ++ [xs.dropLast.getLast h2]) ++ [xs.getLast h1] := by rw [← e2]
    _ = xs.dropLast.dropLast ++ [xs.dropLast.getLast h2, xs.getLast h1] := by simp

theorem Canvas.points_eq_some {s : Canvas} {id : Nat} {pts : List Int}
    (h : s.points id = some pts) : ∃ l, s.lines[id]? = some l ∧ l.points = pts := by
  unfold Canvas.points at h
  cases hl : s.lines[id]? with
  | none => simp [hl] at h
  | some l => exact ⟨l, rfl, by simpa [hl] using h⟩

theorem Canvas.setPoints_drawing {s : Canvas} {id : Nat} (pts : List Int)
    (h : id ∉ s.dessin) : (s.setPoints id pts).drawing = s.drawing := by
  unfold Canvas.drawing
  rw [Canvas.setPoints_dessin]
  apply List.map_congr_left
  intro j hj
  have hne : id ≠ j := fun e => h (e ▸ hj)
  simp [Canvas.setPoints_points_of_ne _ _ hne, Canvas.setPoints_stroke]

theorem Canvas.remove_drawing {s : Canvas} {id : Nat} (h : id ∉ s.dessin) :
    (s.remove id).drawing = s.drawing := by
  rw [Canvas.remove_eq_of_not_mem_dessin h]
  rfl

namespace Inv

/-- Editing the points of the polyline under construction keeps consistency. -/
theorem of_setPoints {w : World} (hinv : Inv w) {id : Nat} {l : Line}
    (hp : w.polyline = some id) (hl : w.stage.lines[id]? = some l)
    (pts : List Int) (st : MState)
    (h1 : st = MState.onePoint → pts.length = 4)
    (h2 : st = MState.manyPoints →
      6 ≤ pts.length ∧ pts.length ≤ 2 * MAX_POINTS ∧ pts.length % 2 = 0) :
    Inv { w with state := st, stage := w.stage.setPoints id pts } := by
  have hnd := hinv.polyline_not_drawn id hp
  constructor
  · intro j hj
    simp only [Canvas.setPoints_dessin, Canvas.setPoints_lines_length] at hj ⊢
    exact hinv.dessin_lt j hj
  · intro j hj
    simp only [Canvas.setPoints_temporaire, Canvas.setPoints_lines_length] at hj ⊢
    exact hinv.temporaire_lt j hj
  · simpa only [Canvas.setPoints_temporaire] using hinv.temporaire_nodup
  · intro j hj
    simp only [Canvas.setPoints_dessin]
    exact hinv.polyline_not_drawn j hj
  · intro _
    exact ⟨id, pts, hp, Canvas.setPoints_points_self pts hl, h1, h2⟩
  · intro j hj
    simp only [Canvas.setPoints_dessin] at hj
    have hne : id ≠ j := fun e => hnd (e ▸ hj)
    simp only [Canvas.setPoints_points_of_ne _ _ hne]
    exact hinv.committed j hj

/-- Action `abandon` followed by the entry in `idle` keeps consistency. -/
theorem of_abandon {w : World} (hinv : Inv w) {id : Nat} (hp : w.polyline = some id) :
    Inv { w with state := MState.idle, stage := w.stage.remove id } := by
  have hnd := hinv.polyline_not_drawn id hp
  rw [Canvas.remove_eq_of_not_mem_dessin hnd]
  constructor
  · exact hinv.dessin_lt
  · intro j hj
    exact hinv.temporaire_lt j (List.mem_of_mem_erase hj)
  · exact hinv.temporaire_nodup.erase id
  · exact hinv.polyline_not_drawn
  · intro h; exact absurd rfl h
  · exact hinv.committed

theorem createLine_eq {w : World} (hinv : Inv w) (pos : Pos) :
    w.createLine pos =
      { w with
        polyline := some w.stage.lines.length
        stage :=
          { lines := w.stage.lines ++
              [{ points := [pos.x, pos.y, pos.x, pos.y], stroke := some "red",
                 strokeWidth := 2 }]
            dessin := w.stage.dessin
            temporaire := w.stage.temporaire ++ [w.stage.lines.length] } } := by
  have h1 : w.stage.lines.length ∉ w.stage.dessin :=
    fun h => Nat.lt_irrefl _ (hinv.dessin_lt _ h)
  have h2 : w.stage.lines.length ∉ w.stage.temporaire :=
    fun h => Nat.lt_irrefl _ (hinv.temporaire_lt _ h)
  simp [World.createLine, Canvas.newLine, Canvas.add, Canvas.getParent, h1, h2, Canvas.push]

/-- Action `createLine` followed by the entry in `onePoint` keeps consistency. -/
theorem of_createLine {w : World} (hinv : Inv w) (pos : Pos) :
    Inv ((w.createLine pos).goto MState.onePoint) := by
  have h1 : w.stage.lines.length ∉ w.stage.dessin :=
    fun h => Nat.lt_irrefl _ (hinv.dessin_lt _ h)
  have h2 : w.stage.lines.length ∉ w.stage.temporaire :=
    fun h => Nat.lt_irrefl _ (hinv.temporaire_lt _ h)
  rw [createLine_eq hinv pos]
  constructor
  · intro j hj
    have := hinv.dessin_lt j hj
    simp only [World.goto, List.length_append, List.length_singleton]
    omega
  · intro j hj
    simp only [World.goto, List.mem_append, List.mem_singleton] at hj
    simp only [World.goto, List.length_append, List.length_singleton]
    rcases hj with hj | hj
    · have := hinv.temporaire_lt j hj; omega
    · omega
  · simp only [World.goto]
    exact List.Nodup.append hinv.temporaire_nodup (List.nodup_singleton _)
      (by simpa using h2)
  · intro j hj
    simp only [World.goto, Option.some.injEq] at hj
    simp only [World.goto]
    rw [← hj]; exact h1
  · intro _
    refine ⟨w.stage.lines.length, [pos.x, pos.y, pos.x, pos.y], rfl, ?_, ?_, ?_⟩
    · simp [World.goto, Canvas.points]
    · intro _; rfl
    · intro h; simp [World.goto] at h
  · intro j hj
    simp only [World.goto] at hj
    obtain ⟨pts, hpts, hb⟩ := hinv.committed j hj
    refine ⟨pts, ?_, hb⟩
    have hlt := hinv.dessin_lt j hj
    simpa [World.goto, Canvas.points, List.getElem?_append_left hlt] using hpts

/-- The state reached by `saveLine` then the entry in `idle` is consistent. -/
theorem of_saveLine {w : World} (hinv : Inv w) {id : Nat} {l : Line} (q : List Int)
    (hl : w.stage.lines[id]? = some l)
    (hq : 4 ≤ q.length ∧ q.length ≤ 2 * MAX_POINTS ∧ q.length % 2 = 0)
    (um : UndoManager) :
    Inv { state := MState.idle
          polyline := none
          stage :=
            { lines := w.stage.lines.set id { l with points := q, stroke := some "black" }
              dessin := w.stage.dessin ++ [id]
              temporaire := w.stage.temporaire.erase id }
          undoManager := um
          selectedLine := w.selectedLine } := by
  have hlt : id < w.stage.lines.length := (List.getElem?_eq_some.mp hl).1
  constructor
  · intro j hj
    simp only [List.mem_append, List.mem_singleton, List.length_set] at hj ⊢
    rcases hj with hj | hj
    · exact hinv.dessin_lt j hj
    · rw [hj]; exact hlt
  · intro j hj
    simp only [List.length_set] at hj ⊢
    exact hinv.temporaire_lt j (List.mem_of_mem_erase hj)
  · exact hinv.temporaire_nodup.erase id
  · intro j hj; simp at hj
  · intro h; exact absurd rfl h
  · intro j hj
    simp only [List.mem_append, List.mem_singleton] at hj
    by_cases hji : id = j
    · subst hji
      exact ⟨q, by simp [Canvas.points, List.getElem?_set_self hlt], hq⟩
    · rcases hj with hj | hj
      · obtain ⟨pts, hpts, hb⟩ := hinv.committed j hj
        refine ⟨pts, ?_, hb⟩
        simpa [Canvas.points, List.getElem?_set_ne hji] using hpts
      · exact absurd hj.symm hji

end Inv

namespace World

theorem createLine_drawing {w : World} (hinv : Inv w) (pos : Pos) :
    ((w.createLine pos).goto MState.onePoint).stage.drawing = w.stage.drawing := by
  rw [Inv.createLine_eq hinv pos]
  simp only [goto, Canvas.drawing]
  apply List.map_congr_left
  intro j hj
  have hlt := hinv.dessin_lt j hj
  simp [Canvas.points, Canvas.stroke, List.getElem?_append_left hlt]

/-- An edit of the points of the polyline under construction: consistency is
kept, and neither the history nor the drawing layer changes. -/
theorem edit_framed {w : World} (hinv : Inv w) {id : Nat} {l : Line}
    (hp : w.polyline = some id) (hl : w.stage.lines[id]? = some l)
    (pts : List Int) (st : MState)
    (h1 : st = MState.onePoint → pts.length = 4)
    (h2 : st = MState.manyPoints →
      6 ≤ pts.length ∧ pts.length ≤ 2 * MAX_POINTS ∧ pts.length % 2 = 0) :
    Inv { w with state := st, stage := w.stage.setPoints id pts } ∧
    (w.stage.setPoints id pts).drawing = w.stage.drawing ∧
    (w.stage.setPoints id pts).dessin = w.stage.dessin :=
  ⟨hinv.of_setPoints hp hl pts st h1 h2,
    Canvas.setPoints_drawing pts (hinv.polyline_not_drawn id hp),
    Canvas.setPoints_dessin _ _ _⟩

theorem abandon_eq {w : World} {id : Nat} (hp : w.polyline = some id) :
    w.abandon = some { w with stage := w.stage.remove id } := by
  simp [abandon, hp]

/-- In a consistent state outside `idle`, the polyline under construction. -/
theorem building_line {w : World} (hinv : Inv w) (hst : w.state ≠ MState.idle) :
    ∃ id l, w.polyline = some id ∧ w.stage.lines[id]? = some l ∧
      (w.state = MState.onePoint → l.points.length = 4) ∧
      (w.state = MState.manyPoints →
        6 ≤ l.points.length ∧ l.points.length ≤ 2 * MAX_POINTS ∧ l.points.length % 2 = 0) := by
  obtain ⟨id, pts, hp, hpts, h1, h2⟩ := hinv.building hst
  obtain ⟨l, hl, hlp⟩ := Canvas.points_eq_some hpts
  subst hlp
  exact ⟨id, l, hp, hl, h1, h2⟩

end World

namespace World

theorem step_idle_consistent {w : World} (hinv : Inv w) (hst : w.state = MState.idle)
    (e : Event) :
    ∃ w1, w.step e = some w1 ∧ Inv w1 ∧ w1.undoManager = w.undoManager ∧
      w1.stage.drawing = w.stage.drawing ∧ w1.stage.dessin = w.stage.dessin := by
  cases e with
  | MOUSECLICK pos =>
    refine ⟨_, step_idle_click hst pos, hinv.of_createLine pos, rfl,
      createLine_drawing hinv pos, ?_⟩
    rw [Inv.createLine_eq hinv pos]; rfl
  | MOUSEMOVE pos => exact ⟨w, step_idle_move hst pos, hinv, rfl, rfl, rfl⟩
  | key k => exact ⟨w, step_idle_key hst k, hinv, rfl, rfl, rfl⟩

theorem step_onePoint_consistent {w : World} (hinv : Inv w)
    (hst : w.state = MState.onePoint) (e : Event) :
    ∃ w1, w.step e = some w1 ∧ Inv w1 ∧ w1.undoManager = w.undoManager ∧
      w1.stage.drawing = w.stage.drawing ∧ w1.stage.dessin = w.stage.dessin := by
  have hne : w.state ≠ MState.idle := by rw [hst]; decide
  obtain ⟨id, l, hp, hl, h1, _⟩ := building_line hinv hne
  have hlen := h1 hst
  cases e with
  | MOUSECLICK pos =>
    obtain ⟨hi, hd, hd2⟩ := edit_framed hinv hp hl (l.points ++ [pos.x, pos.y])
      MState.manyPoints (by intro h; cases h)
      (by intro _; simp [MAX_POINTS, hlen])
    refine ⟨{ w with state := MState.manyPoints,
                     stage := w.stage.setPoints id (l.points ++ [pos.x, pos.y]) },
      ?_, hi, rfl, hd, hd2⟩
    rw [step_onePoint_click hst, addPoint_eq pos hp hl]; rfl
  | MOUSEMOVE pos =>
    obtain ⟨q, a, b, hq, hql⟩ := exists_append_pair l.points (by omega)
    obtain ⟨hi, hd, hd2⟩ := edit_framed hinv hp hl (q ++ [pos.x, pos.y])
      MState.onePoint (by intro _; simp; omega) (by intro h; cases h)
    refine ⟨{ w with stage := w.stage.setPoints id (q ++ [pos.x, pos.y]) },
      ?_, ?_, rfl, hd, hd2⟩
    · rw [step_onePoint_move hst, setLastPoint_eq q a b pos hp hl hq]
    · rw [← hst] at hi; exact hi
  | key k =>
    rw [step_onePoint_key hst]
    by_cases hk : k = "Escape"
    · simp only [hk, if_true, abandon_eq hp, Option.map]
      exact ⟨_, rfl, hinv.of_abandon hp, rfl,
        Canvas.remove_drawing (hinv.polyline_not_drawn id hp),
        Canvas.remove_dessin_of_not_mem (hinv.polyline_not_drawn id hp)⟩
    · simp only [hk, if_false]
      exact ⟨w, rfl, hinv, rfl, rfl, rfl⟩

end World

namespace World

theorem pasPlein_eq {w : World} {id : Nat} {l : Line}
    (hp : w.polyline = some id) (hl : w.stage.lines[id]? = some l) :
    w.pasPlein = some (decide (l.points.length < MAX_POINTS * 2)) := by
  simp [pasPlein, polylinePoints_eq hp hl]

theorem plusDeDeuxPoints_eq {w : World} {id : Nat} {l : Line}
    (hp : w.polyline = some id) (hl : w.stage.lines[id]? = some l) :
    w.plusDeDeuxPoints = some (decide (l.points.length > 6)) := by
  simp [plusDeDeuxPoints, polylinePoints_eq hp hl]

/-- The forced commit: `addPoint` then `saveLine` on a full polyline. -/
theorem addPoint_saveLine_eq {w : World} (hinv : Inv w) {id : Nat} {l : Line} (pos : Pos)
    (hp : w.polyline = some id) (hl : w.stage.lines[id]? = some l) :
    ((w.addPoint pos).bind saveLine).map (goto MState.idle) = some
      { state := MState.idle
        polyline := none
        stage :=
          { lines := w.stage.lines.set id { l with stroke := some "black" }
            dessin := w.stage.dessin ++ [id]
            temporaire := w.stage.temporaire.erase id }
        undoManager :=
          { undoStack := Stack.push w.undoManager.undoStack
              (Command.AddLineCommand id LayerId.dessin)
            redoStack := [] }
        selectedLine := w.selectedLine } := by
  have hlt : id < w.stage.lines.length := (List.getElem?_eq_some.mp hl).1
  have hl1 : (w.stage.setPoints id (l.points ++ [pos.x, pos.y])).lines[id]?
      = some { l with points := l.points ++ [pos.x, pos.y] } := by
    simp [Canvas.setPoints_lines_getElem?, hl]
  have hsave := saveLine_eq
    (w := { w with stage := w.stage.setPoints id (l.points ++ [pos.x, pos.y]) })
    l.points pos.x pos.y hp hl1 rfl
    (by rw [Canvas.setPoints_dessin]; exact hinv.polyline_not_drawn id hp)
    (by rw [Canvas.setPoints_temporaire]; exact hinv.temporaire_nodup)
  rw [addPoint_eq pos hp hl]
  simp only [Option.bind, hsave, Option.map, goto]
  simp [Canvas.setPoints, hl, List.set_set]

theorem step_manyPoints_consistent {w : World} (hinv : Inv w)
    (hst : w.state = MState.manyPoints) (e : Event) :
    ∃ w1, w.step e = some w1 ∧ Inv w1 ∧
      (¬ (e = Event.key "Enter" ∨ ∃ pos, e = Event.MOUSECLICK pos ∧ w.pasPlein = some false) →
        w1.undoManager = w.undoManager ∧
        w1.stage.drawing = w.stage.drawing ∧ w1.stage.dessin = w.stage.dessin) := by
  have hne : w.state ≠ MState.idle := by rw [hst]; decide
  obtain ⟨id, l, hp, hl, _, h2⟩ := building_line hinv hne
  obtain ⟨hlo, hhi, hpar⟩ := h2 hst
  have hnd := hinv.polyline_not_drawn id hp
  simp only [MAX_POINTS] at hhi
  cases e with
  | MOUSECLICK pos =>
    rw [step_manyPoints_click hst, pasPlein_eq hp hl]
    by_cases hfull : l.points.length < MAX_POINTS * 2
    · simp only [hfull, decide_True]
      obtain ⟨hi, hd, hd2⟩ := edit_framed hinv hp hl (l.points ++ [pos.x, pos.y])
        MState.manyPoints (by intro h; cases h)
        (by intro _; simp [MAX_POINTS] at hfull ⊢; omega)
      refine ⟨{ w with stage := w.stage.setPoints id (l.points ++ [pos.x, pos.y]) },
        addPoint_eq pos hp hl, ?_, fun _ => ⟨rfl, hd, hd2⟩⟩
      rw [← hst] at hi; exact hi
    · simp only [hfull, decide_False]
      refine ⟨_, addPoint_saveLine_eq hinv pos hp hl, ?_, ?_⟩
      · have := hinv.of_saveLine l.points hl ⟨by omega, by simpa [MAX_POINTS] using hhi, hpar⟩
          { undoStack := Stack.push w.undoManager.undoStack
              (Command.AddLineCommand id LayerId.dessin)
            redoStack := [] }
        simpa using this
      · intro hc
        exact absurd (Or.inr ⟨pos, rfl, by simp [hfull]⟩) hc
  | MOUSEMOVE pos =>
    obtain ⟨q, a, b, hq, hql⟩ := exists_append_pair l.points (by omega)
    obtain ⟨hi, hd, hd2⟩ := edit_framed hinv hp hl (q ++ [pos.x, pos.y])
      MState.manyPoints (by intro h; cases h)
      (by intro _; simp [MAX_POINTS]; omega)
    refine ⟨{ w with stage := w.stage.setPoints id (q ++ [pos.x, pos.y]) },
      ?_, ?_, fun _ => ⟨rfl, hd, hd2⟩⟩
    · rw [step_manyPoints_move hst, setLastPoint_eq q a b pos hp hl hq]
    · rw [← hst] at hi; exact hi
  | key k =>
    rw [step_manyPoints_key hst]
    obtain ⟨q, a, b, hq, hql⟩ := exists_append_pair l.points (by omega)
    by_cases hk : k = "Escape"
    · simp only [hk, if_true, abandon_eq hp, Option.map]
      exact ⟨_, rfl, hinv.of_abandon hp, fun _ => ⟨rfl, Canvas.remove_drawing hnd,
        Canvas.remove_dessin_of_not_mem hnd⟩⟩
    · simp only [hk, if_false]
      by_cases hk2 : k = "Enter"
      · simp only [hk2, if_true,
          saveLine_eq q a b hp hl hq hnd hinv.temporaire_nodup, Option.map, goto]
        refine ⟨_, rfl, ?_, fun hc => absurd (Or.inl trivial) hc⟩
        exact hinv.of_saveLine q hl ⟨by omega, by simp [MAX_POINTS]; omega, by omega⟩ _
      · simp only [hk2, if_false]
        by_cases hk3 : k = "Backspace"
        · simp only [hk3, if_true, plusDeDeuxPoints_eq hp hl]
          obtain ⟨q2, c, d, hq2, hql2⟩ := exists_append_pair q (by omega)
          have hq4 : l.points = q2 ++ [c, d, a, b] := by rw [hq, hq2]; simp
          have hrem := removeLastPoint_eq q2 c d a b hp hl hq4
          by_cases h6 : l.points.length > 6
          · simp only [h6, decide_True, hrem, Option.map, goto]
            obtain ⟨hi, hd, hd2⟩ := edit_framed hinv hp hl (q2 ++ [a, b])
              MState.manyPoints (by intro h; cases h)
              (by intro _; simp [MAX_POINTS]; omega)
            exact ⟨_, rfl, hi, fun _ => ⟨rfl, hd, hd2⟩⟩
          · simp only [h6, decide_False, hrem, Option.map, goto]
            obtain ⟨hi, hd, hd2⟩ := edit_framed hinv hp hl (q2 ++ [a, b])
              MState.onePoint (by intro _; simp; omega) (by intro h; cases h)
            exact ⟨_, rfl, hi, fun _ => ⟨rfl, hd, hd2⟩⟩
        · simp only [hk3, if_false]
          exact ⟨w, rfl, hinv, fun _ => ⟨rfl, rfl, rfl⟩⟩

end World

/-! ## Reachable states -/

theorem Inv.init : Inv World.init := by
  constructor
  · intro j hj; simp [World.init] at hj
  · intro j hj; simp [World.init] at hj
  · simp [World.init]
  · intro j hj; simp [World.init] at hj
  · intro h; simp [World.init] at h
  · intro j hj; simp [World.init] at hj

theorem World.step_consistent {w : World} (hinv : Inv w) (e : Event) :
    ∃ w1, w.step e = some w1 ∧ Inv w1 ∧
      (¬ (w.state = MState.manyPoints ∧
          (e = Event.key "Enter" ∨
            ∃ pos, e = Event.MOUSECLICK pos ∧ w.pasPlein = some false)) →
        w1.undoManager = w.undoManager ∧
        w1.stage.drawing = w.stage.drawing ∧ w1.stage.dessin = w.stage.dessin) := by
  cases hst : w.state with
  | idle =>
    obtain ⟨w1, h1, h2, h3⟩ := World.step_idle_consistent hinv hst e
    exact ⟨w1, h1, h2, fun _ => h3⟩
  | onePoint =>
    obtain ⟨w1, h1, h2, h3⟩ := World.step_onePoint_consistent hinv hst e
    exact ⟨w1, h1, h2, fun _ => h3⟩
  | manyPoints =>
    obtain ⟨w1, h1, h2, h3⟩ := World.step_manyPoints_consistent hinv hst e
    exact ⟨w1, h1, h2, fun hc => h3 (fun h => hc ⟨rfl, h⟩)⟩

theorem World.run_consistent {w : World} (hinv : Inv w) (es : List Event) :
    ∃ w1, w.run es = some w1 ∧ Inv w1 := by
  induction es generalizing w with
  | nil => exact ⟨w, rfl, hinv⟩
  | cons e es ih =>
    obtain ⟨w1, h1, hinv1, _⟩ := World.step_consistent hinv e
    obtain ⟨w2, h2, hinv2⟩ := ih hinv1
    exact ⟨w2, by simp [World.run, h1, h2], hinv2⟩

/-! ## Counting clicks -/

theorem World.run_append (w : World) (es fs : List Event) :
    w.run (es ++ fs) = (w.run es).bind (fun w1 => w1.run fs) := by
  induction es generalizing w with
  | nil => simp [World.run]
  | cons e es ih =>
    simp only [List.cons_append, World.run]
    cases w.step e with
    | none => rfl
    | some w1 => simpa using ih w1

theorem clicks_append (es fs : List Event) : clicks (es ++ fs) = clicks es + clicks fs := by
  induction es with
  | nil => simp [clicks]
  | cons e es ih =>
    cases e <;> simp [clicks, ih]
    omega

theorem Canvas.mem_dessin_add (s : Canvas) (id : Nat) : id ∈ (s.add LayerId.dessin id).dessin := by
  unfold Canvas.add
  cases hp : s.getParent id with
  | none => simp [Canvas.push]
  | some p =>
    cases p with
    | dessin => simpa using Canvas.mem_dessin_of_getParent hp
    | temporaire => simp [Canvas.push]

theorem World.createLine_spec (w : World) (pos : Pos) :
    (w.createLine pos).polyline = some w.stage.lines.length ∧
    (w.createLine pos).stage.points w.stage.lines.length
      = some [pos.x, pos.y, pos.x, pos.y] ∧
    (w.createLine pos).undoManager = w.undoManager ∧
    (w.createLine pos).state = w.state := by
  refine ⟨rfl, ?_, rfl, rfl⟩
  simp [World.createLine, Canvas.points, Canvas.add_lines, Canvas.newLine]

/-- Action `saveLine` on any stage: the line loses its last point, turns
black, is on the drawing layer afterwards, and one command is pushed. -/
theorem World.saveLine_spec {w : World} {id : Nat} {l : Line} (q : List Int) (a b : Int)
    (hp : w.polyline = some id) (hl : w.stage.lines[id]? = some l)
    (hpts : l.points = q ++ [a, b]) :
    ∃ w1, w.saveLine = some w1 ∧ w1.polyline = none ∧ w1.state = w.state ∧
      w1.undoManager =
        { undoStack := Stack.push w.undoManager.undoStack
            (Command.AddLineCommand id LayerId.dessin)
          redoStack := [] } ∧
      w1.stage.points id = some q ∧ w1.stage.stroke id = some "black" ∧
      id ∈ w1.stage.dessin := by
  have hpt : (w.stage.remove id).points id = some (q ++ [a, b]) := by
    simp [Canvas.points, Canvas.remove_lines, hl, hpts]
  unfold World.saveLine
  rw [hp]
  simp only [hpt, jsSlice_strip_last]
  refine ⟨_, rfl, rfl, rfl, rfl, ?_, ?_, ?_⟩
  · simp [UndoManager.executeCommand, Command.execute, Canvas.points, Canvas.add_lines,
      Canvas.setStroke_lines_getElem?, Canvas.setPoints_lines_getElem?, Canvas.remove_lines, hl]
  · simp [UndoManager.executeCommand, Command.execute, Canvas.stroke, Canvas.add_lines,
      Canvas.setStroke_lines_getElem?, Canvas.setPoints_lines_getElem?, Canvas.remove_lines, hl]
  · exact Canvas.mem_dessin_add _ _

theorem World.run_singleton (w : World) (e : Event) : w.run [e] = w.step e := by
  simp [World.run]

/-- From `idle`, after pointer events holding fewer than `MAX_POINTS` clicks:
the history is untouched, the machine is still in `idle` when there was no
click, and otherwise the polyline under construction holds one point per click
plus the provisional one. -/
theorem World.run_pointer_events (w0 : World) (hidle : w0.state = MState.idle)
    (es : List Event) (hes : ∀ e ∈ es, e.isPointer = true) (hk : clicks es < MAX_POINTS) :
    ∃ w1, w0.run es = some w1 ∧ w1.undoManager = w0.undoManager ∧
      (clicks es = 0 → w1.state = MState.idle) ∧
      (1 ≤ clicks es →
        w1.state = (if clicks es = 1 then MState.onePoint else MState.manyPoints) ∧
        ∃ id l, w1.polyline = some id ∧ w1.stage.lines[id]? = some l ∧
          l.points.length = 2 * (clicks es + 1)) := by
  induction es using List.reverseRecOn with
  | nil => exact ⟨w0, rfl, rfl, fun _ => hidle, fun h => by simp [clicks] at h⟩
  | append_singleton es e ih =>
    have hes1 : ∀ e1 ∈ es, e1.isPointer = true :=
      fun e1 h1 => hes e1 (List.mem_append_left _ h1)
    have hke := clicks_append es [e]
    have hk1 : clicks es < MAX_POINTS := by omega
    obtain ⟨w1, hrun, hum, hzero, hpos⟩ := ih hes1 hk1
    rw [World.run_append, hrun]
    simp only [Option.bind, World.run_singleton]
    simp only [MAX_POINTS] at hk hk1
    cases e with
    | key k =>
      have := hes (Event.key k) (by simp)
      simp [Event.isPointer] at this
    | MOUSEMOVE pos =>
      have hc : clicks (es ++ [Event.MOUSEMOVE pos]) = clicks es := by
        rw [hke]; simp [clicks]
      rw [hc]
      by_cases h0 : clicks es = 0
      · exact ⟨w1, World.step_idle_move (hzero h0) pos, hum, hzero,
          fun h => by omega⟩
      · obtain ⟨hst, id, l, hp, hl, hlen⟩ := hpos (by omega)
        obtain ⟨q, a, b, hq, hql⟩ := exists_append_pair l.points (by omega)
        have hset := World.setLastPoint_eq q a b pos hp hl hq
        refine ⟨{ w1 with stage := w1.stage.setPoints id (q ++ [pos.x, pos.y]) },
          ?_, hum, fun h => absurd h h0,
          fun _ => ⟨hst, id, { l with points := q ++ [pos.x, pos.y] }, hp, ?_, ?_⟩⟩
        · by_cases h1 : clicks es = 1
          · rw [World.step_onePoint_move (by simpa [h1] using hst), hset]
          · rw [World.step_manyPoints_move (by simpa [h1] using hst), hset]
        · simp only [Canvas.setPoints_lines_getElem?, if_true, hl, Option.map]
        · simp; omega
    | MOUSECLICK pos =>
      have hc : clicks (es ++ [Event.MOUSECLICK pos]) = clicks es + 1 := by
        rw [hke]; simp [clicks]
      rw [hc] at hk ⊢
      by_cases h0 : clicks es = 0
      · obtain ⟨hp, hpts, hu, _⟩ := World.createLine_spec w1 pos
        obtain ⟨l, hl, hlp⟩ := Canvas.points_eq_some hpts
        refine ⟨(w1.createLine pos).goto MState.onePoint,
          World.step_idle_click (hzero h0) pos, by simpa [World.goto, hu] using hum,
          fun h => by omega, fun _ => ⟨by simp [h0, World.goto], _, l, hp, hl, ?_⟩⟩
        rw [hlp, h0]; rfl
      · obtain ⟨hst, id, l, hp, hl, hlen⟩ := hpos (by omega)
        have hadd := World.addPoint_eq pos hp hl
        have hne : ¬ (clicks es + 1 = 1) := by omega
        refine ⟨{ w1 with state := MState.manyPoints,
                          stage := w1.stage.setPoints id (l.points ++ [pos.x, pos.y]) },
          ?_, hum, fun h => by omega,
          fun _ => ⟨by simp [hne], id, { l with points := l.points ++ [pos.x, pos.y] },
            hp, ?_, ?_⟩⟩
        · by_cases h1 : clicks es = 1
          · rw [World.step_onePoint_click (by simpa [h1] using hst), hadd]
            rfl
          · have hs : w1.state = MState.manyPoints := by simpa [h1] using hst
            have hfull : l.points.length < MAX_POINTS * 2 := by
              simp only [MAX_POINTS]; omega
            rw [World.step_manyPoints_click hs, World.pasPlein_eq hp hl]
            simp only [hfull, decide_True, hadd]
            rw [← hs]
        · simp only [Canvas.setPoints_lines_getElem?, if_true, hl, Option.map]
        · simp; omega

/-- C5: from `idle`, after pointer events (clicks and moves) holding `k` clicks
with `1 <= k < MAX_POINTS`, the polyline under construction holds `k + 1`
points (`k` real points and the provisional one) and the machine is in
`onePoint` when `k = 1`, in `manyPoints` otherwise; after `MAX_POINTS - 1`
clicks, one more click commits: the machine is in `idle`, one `AddLineCommand`
is pushed, and its line, on the drawing layer, holds `MAX_POINTS` points. -/
theorem clicks_count_real_points (w0 : World) (hidle : w0.state = MState.idle)
    (es : List Event) (hes : ∀ e ∈ es, e.isPointer = true) :
    (1 ≤ clicks es → clicks es < MAX_POINTS →
      ∃ w1 id pts, w0.run es = some w1 ∧
        w1.state = (if clicks es = 1 then MState.onePoint else MState.manyPoints) ∧
        w1.polyline = some id ∧ w1.stage.points id = some pts ∧
        pts.length = 2 * (clicks es + 1)) ∧
    (clicks es = MAX_POINTS - 1 → ∀ pos : Pos,
      ∃ w2 id pts, w0.run (es ++ [Event.MOUSECLICK pos]) = some w2 ∧
        w2.state = MState.idle ∧ w2.polyline = none ∧
        w2.undoManager =
          { undoStack := Stack.push w0.undoManager.undoStack
              (Command.AddLineCommand id LayerId.dessin)
            redoStack := [] } ∧
        id ∈ w2.stage.dessin ∧ w2.stage.points id = some pts ∧
        pts.length = 2 * MAX_POINTS) := by
  constructor
  · intro h1 hk
    obtain ⟨w1, hrun, _, _, hpos⟩ := World.run_pointer_events w0 hidle es hes hk
    obtain ⟨hst, id, l, hp, hl, hlen⟩ := hpos h1
    exact ⟨w1, id, l.points, hrun, hst, hp, by simp [Canvas.points, hl], hlen⟩
  · intro hk pos
    obtain ⟨w1, hrun, hum, _, hpos⟩ := World.run_pointer_events w0 hidle es hes
      (by rw [hk]; decide)
    simp only [MAX_POINTS] at hk
    obtain ⟨hst, id, l, hp, hl, hlen⟩ := hpos (by omega)
    have hs : w1.state = MState.manyPoints := by simpa [hk] using hst
    have hfull : ¬ l.points.length < MAX_POINTS * 2 := by
      simp only [MAX_POINTS]; omega
    have hl1 : (w1.stage.setPoints id (l.points ++ [pos.x, pos.y])).lines[id]?
        = some { l with points := l.points ++ [pos.x, pos.y] } := by
      simp [Canvas.setPoints_lines_getElem?, hl]
    obtain ⟨w2, hsave, hp2, hst2, hum2, hpts2, _, hmem⟩ := World.saveLine_spec
      (w := { w1 with stage := w1.stage.setPoints id (l.points ++ [pos.x, pos.y]) })
      l.points pos.x pos.y hp hl1 rfl
    refine ⟨w2.goto MState.idle, id, l.points, ?_, rfl, hp2, ?_, hmem, hpts2, ?_⟩
    · rw [World.run_append, hrun]
      simp only [Option.bind, World.run_singleton]
      rw [World.step_manyPoints_click hs, World.pasPlein_eq hp hl]
      simp only [hfull, decide_False, World.addPoint_eq pos hp hl, Option.bind, hsave,
        Option.map]
    · simpa [World.goto, hum] using hum2
    · simp only [MAX_POINTS]; omega

/-- Witness of C5: three clicks with moves in between, from the initial state. -/
theorem clicks_count_real_points_witness :
    ∃ w1 id pts,
      World.init.run [Event.MOUSECLICK ⟨1, 1⟩, Event.MOUSEMOVE ⟨2, 2⟩,
        Event.MOUSECLICK ⟨2, 2⟩, Event.MOUSEMOVE ⟨3, 3⟩, Event.MOUSECLICK ⟨3, 3⟩] = some w1 ∧
      w1.state = MState.manyPoints ∧
      w1.polyline = some id ∧ w1.stage.points id = some pts ∧
      pts.length = 2 * (3 + 1) :=
  (clicks_count_real_points World.init rfl
    [Event.MOUSECLICK ⟨1, 1⟩, Event.MOUSEMOVE ⟨2, 2⟩,
      Event.MOUSECLICK ⟨2, 2⟩, Event.MOUSEMOVE ⟨3, 3⟩, Event.MOUSECLICK ⟨3, 3⟩]
    (by decide)).1 (by decide) (by decide)

/-! ## A whole gesture -/

theorem moveAndClick_append (ps qs : List Pos) :
    moveAndClick (ps ++ qs) = moveAndClick ps ++ moveAndClick qs := by
  induction ps with
  | nil => rfl
  | cons p ps ih => simp [moveAndClick, ih]

theorem set_concat_length {α : Type} (xs : List α) (a b : α) :
    (xs ++ [a]).set xs.length b = xs ++ [b] := by
  induction xs with
  | nil => rfl
  | cons x xs ih => simp [ih]

namespace World

theorem withTransient_setPoints (w : World) (st : MState) (pts new : List Int) :
    { w.withTransient st pts with
      stage := (w.withTransient st pts).stage.setPoints w.stage.lines.length new }
      = w.withTransient st new := by
  simp [withTransient, Canvas.setPoints, set_concat_length]

theorem withTransient_line (w : World) (st : MState) (pts : List Int) :
    (w.withTransient st pts).stage.lines[w.stage.lines.length]?
      = some { points := pts, stroke := some "red", strokeWidth := 2 } := by
  simp [withTransient]

theorem withTransient_setLastPoint (w : World) (st : MState) (q : List Int) (a b : Int)
    (pos : Pos) :
    (w.withTransient st (q ++ [a, b])).setLastPoint pos
      = some (w.withTransient st (q ++ [pos.x, pos.y])) := by
  rw [setLastPoint_eq q a b pos rfl (withTransient_line w st _) rfl]
  exact congrArg some (withTransient_setPoints w st _ _)

theorem withTransient_addPoint (w : World) (st : MState) (pts : List Int) (pos : Pos) :
    (w.withTransient st pts).addPoint pos
      = some (w.withTransient st (pts ++ [pos.x, pos.y])) := by
  rw [addPoint_eq pos rfl (withTransient_line w st _)]
  exact congrArg some (withTransient_setPoints w st _ _)

theorem withTransient_goto (w : World) (st st1 : MState) (pts : List Int) :
    (w.withTransient st pts).goto st1 = w.withTransient st1 pts := rfl

/-- The first click, then for each further position a move and a click there:
the polyline under construction holds the clicked positions then the last one
again as provisional point. -/
theorem run_click_moveAndClick {w : World} (hinv : Inv w) (hidle : w.state = MState.idle)
    (p : Pos) (ps : List Pos) (hk : (p :: ps).length < MAX_POINTS) :
    ∃ last : Pos, w.run (Event.MOUSECLICK p :: moveAndClick ps)
      = some (w.withTransient (if ps = [] then MState.onePoint else MState.manyPoints)
          (coords (p :: ps) ++ [last.x, last.y])) := by
  induction ps using List.reverseRecOn with
  | nil =>
    refine ⟨p, ?_⟩
    simp only [moveAndClick, run_singleton, step_idle_click hidle, if_true]
    rw [Inv.createLine_eq hinv p]
    rfl
  | append_singleton ps q ih =>
    simp only [List.length_cons, List.length_append, List.length_singleton, MAX_POINTS] at hk
    obtain ⟨last, hrun⟩ := ih (by simp only [List.length_cons, MAX_POINTS]; omega)
    refine ⟨q, ?_⟩
    have hsplit : Event.MOUSECLICK p :: moveAndClick (ps ++ [q])
        = (Event.MOUSECLICK p :: moveAndClick ps)
          ++ [Event.MOUSEMOVE q, Event.MOUSECLICK q] := by
      simp [moveAndClick_append, moveAndClick]
    have hcoords : coords (p :: (ps ++ [q])) = coords (p :: ps) ++ [q.x, q.y] := by
      rw [← List.cons_append, coords_append]; rfl
    rw [hsplit, run_append, hrun]
    simp only [Option.bind, run, List.append_eq_nil, List.cons_ne_self, and_false, if_false,
      hcoords]
    by_cases hps : ps = []
    · have hst : (w.withTransient MState.onePoint (coords (p :: ps) ++ [last.x, last.y])).state
          = MState.onePoint := rfl
      simp only [hps, if_true] at hst ⊢
      rw [step_onePoint_move hst, withTransient_setLastPoint]
      simp only [Option.bind]
      rw [step_onePoint_click rfl, withTransient_addPoint]
      simp [withTransient_goto]
    · have hst : (w.withTransient MState.manyPoints
          (coords (p :: ps) ++ [last.x, last.y])).state = MState.manyPoints := rfl
      simp only [hps, if_false]
      rw [step_manyPoints_move hst, withTransient_setLastPoint]
      simp only [Option.bind]
      rw [step_manyPoints_click rfl,
        pasPlein_eq rfl (withTransient_line w MState.manyPoints _)]
      have hfull : (coords (p :: ps) ++ [q.x, q.y]).length < MAX_POINTS * 2 := by
        simp only [List.length_append, length_coords, List.length_cons, List.length_nil,
          MAX_POINTS]
        omega
      simp only [hfull, decide_True, withTransient_addPoint]

end World

/-- C4, as stated, fails: clicks at (10,10), (20,20), (30,30) then `Enter`, with
no other event, commit the points (10,10), (10,10), (20,20): each click makes
the provisional point real, and without a move that point still lies where the
previous click left it. -/
theorem three_clicks_enter_lag :
    World.init.run [Event.MOUSECLICK ⟨10, 10⟩, Event.MOUSECLICK ⟨20, 20⟩,
        Event.MOUSECLICK ⟨30, 30⟩, Event.key "Enter"]
      = some
        { state := MState.idle, polyline := none,
          stage := { lines := [⟨[10, 10, 10, 10, 20, 20], some "black", 2⟩], dessin := [0],
                     temporaire := [] },
          undoManager :=
            { undoStack := [Command.AddLineCommand 0 LayerId.dessin], redoStack := [] },
          selectedLine := none } ∧
    ([10, 10, 10, 10, 20, 20] : List Int) ≠ coords [⟨10, 10⟩, ⟨20, 20⟩, ⟨30, 30⟩] :=
  ⟨by decide, by decide⟩

/-- C4 (amended): from an `idle` state reached from the initial state, `k`
clicks at `p1..pk` (`2 <= k < MAX_POINTS`), each click after the first preceded
by a move of the pointer to its position, then `Enter`: the stage gains one
line, appended to the drawing layer, whose points are exactly `p1..pk`, in
black; the temporary layer and the other lines are as before, one
`AddLineCommand` is pushed, and the machine is back in `idle`. -/
theorem clicks_with_moves_then_enter (pre : List Event) (w0 : World)
    (hrun : World.init.run pre = some w0) (hidle : w0.state = MState.idle)
    (p : Pos) (ps : List Pos)
    (h2 : 2 ≤ (p :: ps).length) (hk : (p :: ps).length < MAX_POINTS) :
    w0.run (Event.MOUSECLICK p :: moveAndClick ps ++ [Event.key "Enter"])
      = some
        { state := MState.idle
          polyline := none
          stage :=
            { lines := w0.stage.lines ++
                [{ points := coords (p :: ps), stroke := some "black", strokeWidth := 2 }]
              dessin := w0.stage.dessin ++ [w0.stage.lines.length]
              temporaire := w0.stage.temporaire }
          undoManager :=
            { undoStack := Stack.push w0.undoManager.undoStack
                (Command.AddLineCommand w0.stage.lines.length LayerId.dessin)
              redoStack := [] }
          selectedLine := w0.selectedLine } ∧
    w0.stage.lines.length ∉ w0.stage.dessin := by
  have hinv : Inv w0 := by
    obtain ⟨w1, h1, hinv1⟩ := World.run_consistent Inv.init pre
    rw [hrun] at h1
    cases h1
    exact hinv1
  have hnd : w0.stage.lines.length ∉ w0.stage.dessin :=
    fun h => Nat.lt_irrefl _ (hinv.dessin_lt _ h)
  have hnt : w0.stage.lines.length ∉ w0.stage.temporaire :=
    fun h => Nat.lt_irrefl _ (hinv.temporaire_lt _ h)
  refine ⟨?_, hnd⟩
  obtain ⟨last, hgest⟩ := World.run_click_moveAndClick hinv hidle p ps hk
  have hps : ps ≠ [] := by
    intro h; rw [h] at h2; simp at h2
  simp only [hps, if_false] at hgest
  have hnodup : (w0.stage.temporaire ++ [w0.stage.lines.length]).Nodup :=
    List.Nodup.append hinv.temporaire_nodup (List.nodup_singleton _) (by simpa using hnt)
  have hsave := World.saveLine_eq
    (w := w0.withTransient MState.manyPoints (coords (p :: ps) ++ [last.x, last.y]))
    (coords (p :: ps)) last.x last.y rfl (World.withTransient_line w0 _ _) rfl hnd hnodup
  rw [World.run_append, hgest]
  simp only [Option.bind, World.run_singleton]
  rw [World.step_manyPoints_key rfl]
  simp only [String.reduceEq, if_false, if_true, hsave, Option.map, World.goto]
  simp [World.withTransient, set_concat_length, List.erase_append_right _ hnt]

/-- Witness of C4 (amended): from the initial state, click at (10,10), move and
click at (20,20), move and click at (30,30), then `Enter`. -/
theorem clicks_with_moves_then_enter_witness :
    World.init.run [Event.MOUSECLICK ⟨10, 10⟩, Event.MOUSEMOVE ⟨20, 20⟩,
        Event.MOUSECLICK ⟨20, 20⟩, Event.MOUSEMOVE ⟨30, 30⟩, Event.MOUSECLICK ⟨30, 30⟩,
        Event.key "Enter"]
      = some
        { state := MState.idle, polyline := none,
          stage := { lines := [⟨[10, 10, 20, 20, 30, 30], some "black", 2⟩], dessin := [0],
                     temporaire := [] },
          undoManager :=
            { undoStack := [Command.AddLineCommand 0 LayerId.dessin], redoStack := [] },
          selectedLine := none } :=
  (clicks_with_moves_then_enter [] World.init rfl rfl ⟨10, 10⟩ [⟨20, 20⟩, ⟨30, 30⟩]
    (by decide) (by decide)).1

/-! ## The two commands and the empty stacks -/

theorem Canvas.setStroke_points (s : Canvas) (id j : Nat) (c : Option String) :
    (s.setStroke id c).points j = s.points j := by
  simp only [Canvas.points, Canvas.setStroke_lines_getElem?]
  by_cases hj : id = j
  · simp only [hj, if_true]; cases s.lines[j]? <;> rfl
  · simp [hj]

theorem Canvas.setStroke_lines_length (s : Canvas) (id : Nat) (c : Option String) :
    (s.setStroke id c).lines.length = s.lines.length := by
  unfold Canvas.setStroke; cases s.lines[id]? <;> simp

theorem Canvas.setStroke_stroke_own {s : Canvas} {id : Nat} {l : Line} (c : Option String)
    (h : s.lines[id]? = some l) : (s.setStroke id c).stroke id = c := by
  simp [Canvas.stroke, Canvas.setStroke_lines_getElem?, h]

theorem Canvas.setStroke_lines_of_ne (s : Canvas) {id j : Nat} (c : Option String)
    (h : j ≠ id) : (s.setStroke id c).lines[j]? = s.lines[j]? := by
  have h2 : id ≠ j := fun e => h e.symm
  simp [Canvas.setStroke_lines_getElem?, h2]

/-- C11: a `ChangeColorCommand` built for line `id` on stage `s0` records the
stroke the line has on `s0`. On any later stage `s` holding the line,
`execute()` sets its stroke to the new color and `undo()` sets it to the
recorded one; both leave the layers, the points of every line and every other
line as they are. For a black line: executing the red command gives red,
`undo()` gives black, `redo()` gives red again. -/
theorem changeColor_uses_constructed_color (s0 s : Canvas) (id : Nat) (n : String)
    (l : Line) (hl : s.lines[id]? = some l) :
    Command.newChangeColor s0 (some id) n
      = Command.ChangeColorCommand (some id) n (s0.stroke id) ∧
    ((Command.newChangeColor s0 (some id) n).execute s).stroke id = some n ∧
    ((Command.newChangeColor s0 (some id) n).undo s).stroke id = s0.stroke id ∧
    (∀ t, t = (Command.newChangeColor s0 (some id) n).execute s ∨
        t = (Command.newChangeColor s0 (some id) n).undo s →
      t.dessin = s.dessin ∧ t.temporaire = s.temporaire ∧
      t.lines.length = s.lines.length ∧
      (∀ j : Nat, t.points j = s.points j) ∧
      (∀ j : Nat, j ≠ id → t.lines[j]? = s.lines[j]?)) ∧
    (∀ pts : List Int, ∀ w : Nat,
      (UndoManager.executeCommand
          (Command.newChangeColor ⟨[⟨pts, some "black", w⟩], [0], []⟩ (some 0) "red")
          (UndoManager.new, ⟨[⟨pts, some "black", w⟩], [0], []⟩)).2.stroke 0 = some "red" ∧
      (UndoManager.undo (UndoManager.executeCommand
          (Command.newChangeColor ⟨[⟨pts, some "black", w⟩], [0], []⟩ (some 0) "red")
          (UndoManager.new, ⟨[⟨pts, some "black", w⟩], [0], []⟩))).2.stroke 0
        = some "black" ∧
      (UndoManager.redo (UndoManager.undo (UndoManager.executeCommand
          (Command.newChangeColor ⟨[⟨pts, some "black", w⟩], [0], []⟩ (some 0) "red")
          (UndoManager.new, ⟨[⟨pts, some "black", w⟩], [0], []⟩)))).2.stroke 0
        = some "red") := by
  refine ⟨rfl, Canvas.setStroke_stroke_own _ hl, Canvas.setStroke_stroke_own _ hl, ?_, ?_⟩
  · intro t ht
    rcases ht with ht | ht <;> subst ht <;>
      exact ⟨Canvas.setStroke_dessin _ _ _, Canvas.setStroke_temporaire _ _ _,
        Canvas.setStroke_lines_length _ _ _, fun _ => Canvas.setStroke_points _ _ _ _,
        fun j hj => Canvas.setStroke_lines_of_ne _ _ hj⟩
  · intro pts w
    exact ⟨rfl, rfl, rfl⟩

/-- Witness of C11: a red command built while the line is black, run on a
stage where the line has meanwhile turned blue. -/
theorem changeColor_uses_constructed_color_witness :
    (Command.execute
        (Command.newChangeColor ⟨[⟨[1, 1, 2, 2], some "black", 2⟩], [0], []⟩ (some 0) "red")
        ⟨[⟨[1, 1, 2, 2], some "blue", 2⟩], [0], []⟩).stroke 0 = some "red" ∧
    (Command.undo
        (Command.newChangeColor ⟨[⟨[1, 1, 2, 2], some "black", 2⟩], [0], []⟩ (some 0) "red")
        ⟨[⟨[1, 1, 2, 2], some "blue", 2⟩], [0], []⟩).stroke 0 = some "black" :=
  ⟨(changeColor_uses_constructed_color ⟨[⟨[1, 1, 2, 2], some "black", 2⟩], [0], []⟩
      ⟨[⟨[1, 1, 2, 2], some "blue", 2⟩], [0], []⟩ 0 "red" ⟨[1, 1, 2, 2], some "blue", 2⟩
      rfl).2.1,
    (changeColor_uses_constructed_color ⟨[⟨[1, 1, 2, 2], some "black", 2⟩], [0], []⟩
      ⟨[⟨[1, 1, 2, 2], some "blue", 2⟩], [0], []⟩ 0 "red" ⟨[1, 1, 2, 2], some "blue", 2⟩
      rfl).2.2.1⟩

/-- C12: `undo()` on an empty `undoStack` and `redo()` on an empty `redoStack`
return the history and the stage as they are: no exception, no command
effect, both stacks and the stage unchanged. -/
theorem undo_redo_on_empty (h : UndoManager × Canvas) :
    (Stack.isEmpty h.1.undoStack = true → UndoManager.undo h = h) ∧
    (Stack.isEmpty h.1.redoStack = true → UndoManager.redo h = h) := by
  constructor
  · intro he; simp [UndoManager.undo, he]
  · intro he; simp [UndoManager.redo, he]

/-- Witness of C12: a fresh history over a stage with one line. -/
theorem undo_redo_on_empty_witness :
    UndoManager.undo (UndoManager.new, ⟨[⟨[1, 1, 2, 2], some "black", 2⟩], [0], []⟩)
      = (UndoManager.new, ⟨[⟨[1, 1, 2, 2], some "black", 2⟩], [0], []⟩) ∧
    UndoManager.redo (UndoManager.new, ⟨[⟨[1, 1, 2, 2], some "black", 2⟩], [0], []⟩)
      = (UndoManager.new, ⟨[⟨[1, 1, 2, 2], some "black", 2⟩], [0], []⟩) :=
  ⟨(undo_redo_on_empty (UndoManager.new, ⟨[⟨[1, 1, 2, 2], some "black", 2⟩], [0], []⟩)).1 rfl,
    (undo_redo_on_empty (UndoManager.new, ⟨[⟨[1, 1, 2, 2], some "black", 2⟩], [0], []⟩)).2 rfl⟩

/-- C13: with `c` on top of `undoStack` (above `U`) and `redoStack = R`,
`undo()` runs `c.undo()` once and yields `undoStack = U` and `R` with `c`
pushed; with `c` on top of `redoStack` (above `R`) and `undoStack = U`,
`redo()` runs `c.execute()` once and yields `redoStack = R` and `U` with `c`
pushed. -/
theorem undo_redo_move_top (c : Command) (U R : Stack Command) (s : Canvas) :
    UndoManager.undo ({ undoStack := Stack.push U c, redoStack := R }, s)
      = ({ undoStack := U, redoStack := Stack.push R c }, c.undo s) ∧
    UndoManager.redo ({ undoStack := U, redoStack := Stack.push R c }, s)
      = ({ undoStack := Stack.push U c, redoStack := R }, c.execute s) :=
  ⟨rfl, rfl⟩

/-- C20: a `ChangeColorCommand` built over an absent line records no old color,
and its `execute()` and `undo()` return the stage as it is; through the
history manager, the stage is unchanged as well. -/
theorem changeColor_absent_line (s0 s : Canvas) (n : String) (m : UndoManager) :
    Command.newChangeColor s0 none n = Command.ChangeColorCommand none n none ∧
    (Command.newChangeColor s0 none n).execute s = s ∧
    (Command.newChangeColor s0 none n).undo s = s ∧
    (UndoManager.executeCommand (Command.newChangeColor s0 none n) (m, s)).2 = s ∧
    (UndoManager.undo
      (UndoManager.executeCommand (Command.newChangeColor s0 none n) (m, s))).2 = s :=
  ⟨rfl, rfl, rfl, rfl, rfl⟩

/-- C16, as stated, fails: the key `*` is a key signal with no transition, yet
`polylineService.send` raises an exception on it (the interpreter refuses the
wildcard event type), here in the initial state, which is `idle`. -/
theorem wildcard_key_raises :
    World.init.state = MState.idle ∧ World.init.send (Event.key "*") = none :=
  ⟨by decide, by decide⟩

/-- C16 (amended): events with no transition in the current state are ignored
without exception, the whole program state being unchanged: moves, `Escape`,
`Enter`, `Backspace` and every key but `*` in `idle`; `Enter`, `Backspace` and
every key but `Escape` and `*` in `onePoint`; every key but `Escape`, `Enter`,
`Backspace` and `*` in `manyPoints`. In every state the key `*` leaves the
program state unchanged too, but `polylineService.send` raises on it. -/
theorem out_of_phase_ignored (w : World) :
    (w.state = MState.idle →
      (∀ pos : Pos, w.send (Event.MOUSEMOVE pos) = some w) ∧
      w.send (Event.key "Escape") = some w ∧ w.send (Event.key "Enter") = some w ∧
      w.send (Event.key "Backspace") = some w ∧
      ∀ k : String, k ≠ "*" → w.send (Event.key k) = some w) ∧
    (w.state = MState.onePoint →
      w.send (Event.key "Enter") = some w ∧ w.send (Event.key "Backspace") = some w ∧
      ∀ k : String, k ≠ "Escape" → k ≠ "*" → w.send (Event.key k) = some w) ∧
    (w.state = MState.manyPoints →
      ∀ k : String, k ≠ "Escape" → k ≠ "Enter" → k ≠ "Backspace" → k ≠ "*" →
        w.send (Event.key k) = some w) ∧
    (w.send (Event.key "*") = none ∧ w.step (Event.key "*") = some w) := by
  refine ⟨?_, ?_, ?_, World.send_wildcard w⟩
  · intro h
    have hk : ∀ k : String, k ≠ "*" → w.send (Event.key k) = some w := by
      intro k hk
      rw [World.send_key w hk, World.step_idle_key h k]
    refine ⟨?_, hk _ (by decide), hk _ (by decide), hk _ (by decide), hk⟩
    intro pos
    rw [World.send_move, World.step_idle_move h pos]
  · intro h
    have hk : ∀ k : String, k ≠ "Escape" → k ≠ "*" → w.send (Event.key k) = some w := by
      intro k h1 h2
      rw [World.send_key w h2, World.step_onePoint_key h]; simp [h1]
    exact ⟨hk _ (by decide) (by decide), hk _ (by decide) (by decide), hk⟩
  · intro h k h1 h2 h3 h4
    rw [World.send_key w h4, World.step_manyPoints_key h]; simp [h1, h2, h3]

/-- Witness of C16 (amended): `Escape` and a move in the initial state, which is
`idle`. -/
theorem out_of_phase_ignored_witness :
    World.init.send (Event.MOUSEMOVE ⟨3, 4⟩) = some World.init ∧
    World.init.send (Event.key "Escape") = some World.init :=
  ⟨((out_of_phase_ignored World.init).1 rfl).1 ⟨3, 4⟩,
    ((out_of_phase_ignored World.init).1 rfl).2.1⟩

/-- C15 fails on the code: `updateButtons` calls `undoManager.canUndo()`, a
method class `UndoManager` does not define, so the call raises instead of
returning true with a non-empty `undoStack`, and `updateButtons` raises with
it. -/
theorem canUndo_raises (w : World) (c : Command) :
    UndoManager.canUndo { undoStack := [c], redoStack := [] } = none ∧
    UndoManager.canRedo { undoStack := [], redoStack := [c] } = none ∧
    w.updateButtons = none :=
  ⟨rfl, rfl, rfl⟩

/-! ## The capacity guard -/

/-- C17, as stated, fails: after nine clicks the polyline holds 9 real points
(fewer than `MAX_POINTS`) and the provisional one; the next click does not
keep the machine in `manyPoints` but commits the ten points and goes to
`idle`. -/
theorem click_with_nine_real_points_commits :
    World.init.run [Event.MOUSECLICK ⟨0, 0⟩, Event.MOUSECLICK ⟨1, 1⟩, Event.MOUSECLICK ⟨2, 2⟩,
        Event.MOUSECLICK ⟨3, 3⟩, Event.MOUSECLICK ⟨4, 4⟩, Event.MOUSECLICK ⟨5, 5⟩,
        Event.MOUSECLICK ⟨6, 6⟩, Event.MOUSECLICK ⟨7, 7⟩, Event.MOUSECLICK ⟨8, 8⟩]
      = some
        { state := MState.manyPoints, polyline := some 0,
          stage :=
            { lines := [⟨coords [⟨0, 0⟩, ⟨0, 0⟩, ⟨1, 1⟩, ⟨2, 2⟩, ⟨3, 3⟩, ⟨4, 4⟩, ⟨5, 5⟩,
                          ⟨6, 6⟩, ⟨7, 7⟩] ++ coords [⟨8, 8⟩], some "red", 2⟩],
              dessin := [], temporaire := [0] },
          undoManager := UndoManager.new, selectedLine := none } ∧
    World.send
        { state := MState.manyPoints, polyline := some 0,
          stage :=
            { lines := [⟨coords [⟨0, 0⟩, ⟨0, 0⟩, ⟨1, 1⟩, ⟨2, 2⟩, ⟨3, 3⟩, ⟨4, 4⟩, ⟨5, 5⟩,
                          ⟨6, 6⟩, ⟨7, 7⟩] ++ coords [⟨8, 8⟩], some "red", 2⟩],
              dessin := [], temporaire := [0] },
          undoManager := UndoManager.new, selectedLine := none }
        (Event.MOUSECLICK ⟨9, 9⟩)
      = some
        { state := MState.idle, polyline := none,
          stage :=
            { lines := [⟨coords [⟨0, 0⟩, ⟨0, 0⟩, ⟨1, 1⟩, ⟨2, 2⟩, ⟨3, 3⟩, ⟨4, 4⟩, ⟨5, 5⟩,
                          ⟨6, 6⟩, ⟨7, 7⟩, ⟨8, 8⟩], some "black", 2⟩],
              dessin := [0], temporaire := [] },
          undoManager :=
            { undoStack := [Command.AddLineCommand 0 LayerId.dessin], redoStack := [] },
          selectedLine := none } ∧
    [(⟨0, 0⟩ : Pos), ⟨0, 0⟩, ⟨1, 1⟩, ⟨2, 2⟩, ⟨3, 3⟩, ⟨4, 4⟩, ⟨5, 5⟩, ⟨6, 6⟩,
      ⟨7, 7⟩].length < MAX_POINTS :=
  ⟨by decide, by decide, by decide⟩

/-- C17 (amended): in `manyPoints`, with `r` real points followed by the
provisional point, a click while `r < MAX_POINTS - 1` appends the pointer
position as new provisional point (the former one becomes real) and stays in
`manyPoints` without committing; a click while `r >= MAX_POINTS - 1` appends,
strips the point just appended, commits the `r + 1` remaining points (the
transient polyline not being on the drawing layer) and goes to `idle`. -/
theorem click_in_manyPoints (w : World) (id : Nat) (l : Line) (real : List Pos)
    (prov pos : Pos)
    (hst : w.state = MState.manyPoints) (hp : w.polyline = some id)
    (hl : w.stage.lines[id]? = some l) (hpts : l.points = coords (real ++ [prov])) :
    (real.length < MAX_POINTS - 1 →
      w.send (Event.MOUSECLICK pos)
        = some { w with stage := w.stage.setPoints id (coords (real ++ [prov, pos])) }) ∧
    (MAX_POINTS - 1 ≤ real.length → id ∉ w.stage.dessin → w.stage.temporaire.Nodup →
      w.send (Event.MOUSECLICK pos) = some
        { state := MState.idle
          polyline := none
          stage :=
            { lines := w.stage.lines.set id
                { points := coords (real ++ [prov]), stroke := some "black",
                  strokeWidth := l.strokeWidth }
              dessin := w.stage.dessin ++ [id]
              temporaire := w.stage.temporaire.erase id }
          undoManager :=
            { undoStack := Stack.push w.undoManager.undoStack
                (Command.AddLineCommand id LayerId.dessin)
              redoStack := [] }
          selectedLine := w.selectedLine }) := by
  have hlen : l.points.length = 2 * real.length + 2 := by
    rw [hpts, length_coords]; simp; omega
  have hadd : l.points ++ [pos.x, pos.y] = coords (real ++ [prov, pos]) := by
    rw [hpts]; simp [coords_append, coords]
  constructor
  · intro hr
    simp only [MAX_POINTS] at hr
    have hfull : l.points.length < MAX_POINTS * 2 := by
      simp only [MAX_POINTS]; omega
    rw [World.send_click, World.step_manyPoints_click hst, World.pasPlein_eq hp hl]
    simp only [hfull, decide_True, World.addPoint_eq pos hp hl, hadd]
  · intro hr hd hn
    simp only [MAX_POINTS] at hr
    have hfull : ¬ l.points.length < MAX_POINTS * 2 := by
      simp only [MAX_POINTS]; omega
    have hl1 : (w.stage.setPoints id (l.points ++ [pos.x, pos.y])).lines[id]?
        = some { l with points := l.points ++ [pos.x, pos.y] } := by
      simp [Canvas.setPoints_lines_getElem?, hl]
    have hsave := World.saveLine_eq
      (w := { w with stage := w.stage.setPoints id (l.points ++ [pos.x, pos.y]) })
      l.points pos.x pos.y hp hl1 rfl
      (by rw [Canvas.setPoints_dessin]; exact hd)
      (by rw [Canvas.setPoints_temporaire]; exact hn)
    rw [World.send_click, World.step_manyPoints_click hst, World.pasPlein_eq hp hl]
    simp only [hfull, decide_False, World.addPoint_eq pos hp hl, Option.bind, hsave,
      Option.map, World.goto]
    simp [Canvas.setPoints, hl, List.set_set, hpts]

/-- Witness of C17 (amended): a click with two real points stays in
`manyPoints` with one more point. -/
theorem click_in_manyPoints_witness :
    World.send
        { state := MState.manyPoints, polyline := some 0,
          stage := { lines := [⟨[1, 1, 2, 2, 3, 3], some "red", 2⟩], dessin := [],
                     temporaire := [0] },
          undoManager := UndoManager.new, selectedLine := none }
        (Event.MOUSECLICK ⟨4, 4⟩)
      = some
        { state := MState.manyPoints, polyline := some 0,
          stage := { lines := [⟨[1, 1, 2, 2, 3, 3, 4, 4], some "red", 2⟩], dessin := [],
                     temporaire := [0] },
          undoManager := UndoManager.new, selectedLine := none } :=
  (click_in_manyPoints
    { state := MState.manyPoints, polyline := some 0,
      stage := { lines := [⟨[1, 1, 2, 2, 3, 3], some "red", 2⟩], dessin := [],
                 temporaire := [0] },
      undoManager := UndoManager.new, selectedLine := none }
    0 ⟨[1, 1, 2, 2, 3, 3], some "red", 2⟩ [⟨1, 1⟩, ⟨2, 2⟩] ⟨3, 3⟩ ⟨4, 4⟩
    rfl rfl rfl rfl).1 (by decide)

/-! ## The two stacks along a sequence of operations -/

/-- C14, as stated, fails: after `executeCommand(c1); undo(); executeCommand(c2)`
the command `c1`, which was executed, is in neither stack, because
`executeCommand` replaces `redoStack` by an empty stack. -/
theorem undone_command_dropped :
    (HistoryOp.applyAll
        (UndoManager.new,
          { lines := [⟨[1, 1, 2, 2], some "black", 2⟩, ⟨[3, 3, 4, 4], some "black", 2⟩],
            dessin := [], temporaire := [] })
        [HistoryOp.executeCommand (Command.AddLineCommand 0 LayerId.dessin),
          HistoryOp.undo,
          HistoryOp.executeCommand (Command.AddLineCommand 1 LayerId.dessin)]).1
      = { undoStack := [Command.AddLineCommand 1 LayerId.dessin], redoStack := [] } ∧
    Command.AddLineCommand 0 LayerId.dessin ∈
      HistoryOp.executed
        [HistoryOp.executeCommand (Command.AddLineCommand 0 LayerId.dessin),
          HistoryOp.undo,
          HistoryOp.executeCommand (Command.AddLineCommand 1 LayerId.dessin)] ∧
    Command.AddLineCommand 0 LayerId.dessin ∉
      [Command.AddLineCommand 1 LayerId.dessin] ++ ([] : List Command) ∧
    (HistoryOp.executed
        [HistoryOp.executeCommand (Command.AddLineCommand 0 LayerId.dessin),
          HistoryOp.undo,
          HistoryOp.executeCommand (Command.AddLineCommand 1 LayerId.dessin)]).Nodup :=
  ⟨by decide, by decide, by decide, by decide⟩

theorem RankedHistory.stacks_invariant (ops : List HistoryOp) :
    ∀ (t : RankedHistory) (h : UndoManager × Canvas) (E : List Command),
      h.1.undoStack = t.undoStack.map Prod.snd →
      h.1.redoStack = t.redoStack.map Prod.snd →
      (t.undoStack.map Prod.fst ++ t.redoStack.map Prod.fst).Nodup →
      (∀ x ∈ t.undoStack ++ t.redoStack, E[x.1]? = some x.2) →
      t.calls = E.length →
      (∀ r, t.last = some r →
        t.undoStack.head?.map Prod.fst = some r ∨
        t.redoStack.head?.map Prod.fst = some r) →
      (HistoryOp.applyAll h ops).1.undoStack = (t.applyAll ops).undoStack.map Prod.snd ∧
      (HistoryOp.applyAll h ops).1.redoStack = (t.applyAll ops).redoStack.map Prod.snd ∧
      ((t.applyAll ops).undoStack.map Prod.fst
        ++ (t.applyAll ops).redoStack.map Prod.fst).Nodup ∧
      (∀ x ∈ (t.applyAll ops).undoStack ++ (t.applyAll ops).redoStack,
        (E ++ HistoryOp.executed ops)[x.1]? = some x.2) ∧
      (t.applyAll ops).calls = (E ++ HistoryOp.executed ops).length ∧
      (∀ r, (t.applyAll ops).last = some r →
        (t.applyAll ops).undoStack.head?.map Prod.fst = some r ∨
        (t.applyAll ops).redoStack.head?.map Prod.fst = some r) := by
  induction ops with
  | nil =>
    intro t h E hu hr hn hs hc hl
    refine ⟨hu, hr, hn, ?_, ?_, hl⟩
    · intro x hx
      simpa [HistoryOp.executed] using hs x hx
    · simpa [HistoryOp.executed] using hc
  | cons op ops ih =>
    intro t h E hu hr hn hs hc hl
    obtain ⟨U, R, n, last⟩ := t
    obtain ⟨⟨hU, hR⟩, s⟩ := h
    simp only at hu hr hn hs hc hl
    subst hu hr hc
    cases op with
    | executeCommand c =>
      have hlt : ∀ x ∈ U, x.1 < E.length := by
        intro x hx
        exact (List.getElem?_eq_some.mp (hs x (List.mem_append_left _ hx))).1
      have hnew : E.length ∉ U.map Prod.fst := by
        intro hm
        obtain ⟨x, hx, hx1⟩ := List.mem_map.mp hm
        have := hlt x hx
        omega
      have hnU : (U.map Prod.fst).Nodup := (List.nodup_append.mp hn).1
      have := ih
        { undoStack := (E.length, c) :: U, redoStack := [], calls := E.length + 1,
          last := some E.length }
        (UndoManager.executeCommand c
          (({ undoStack := U.map Prod.snd, redoStack := R.map Prod.snd } : UndoManager), s))
        (E ++ [c])
        (by simp [UndoManager.executeCommand, Stack.push])
        (by simp [UndoManager.executeCommand])
        (by
          have hnew2 : ∀ y : Command, (E.length, y) ∉ U :=
            fun y hy => hnew (List.mem_map.mpr ⟨_, hy, rfl⟩)
          simpa using ⟨hnew2, hnU⟩)
        (by
          intro x hx
          simp only [List.append_nil, List.mem_cons] at hx
          rcases hx with hx | hx
          · subst hx; simp
          · have h1 := hlt x hx
            rw [List.getElem?_append_left h1]
            exact hs x (List.mem_append_left _ hx))
        (by simp)
        (by intro r hr; left; simpa using hr)
      simpa [HistoryOp.applyAll, HistoryOp.apply, RankedHistory.applyAll, RankedHistory.apply,
        HistoryOp.executed, Stack.push] using this
    | undo =>
      cases U with
      | nil =>
        have := ih { undoStack := [], redoStack := R, calls := E.length, last := last }
          (({ undoStack := [], redoStack := R.map Prod.snd } : UndoManager), s) E
          rfl rfl hn hs rfl hl
        simpa [HistoryOp.applyAll, HistoryOp.apply, RankedHistory.applyAll,
          RankedHistory.apply, HistoryOp.executed, UndoManager.undo, Stack.isEmpty,
          Stack.pop] using this
      | cons x U =>
        have := ih
          { undoStack := U, redoStack := x :: R, calls := E.length, last := some x.1 }
          (({ undoStack := U.map Prod.snd, redoStack := (x :: R).map Prod.snd } :
            UndoManager), x.2.undo s) E
          rfl rfl
          (by
            have h1 : (x.1 :: (U.map Prod.fst ++ R.map Prod.fst)).Nodup := by
              simpa using hn
            simpa using List.nodup_middle.mpr h1)
          (by
            intro y hy
            apply hs y
            simp only [List.mem_append, List.mem_cons] at hy ⊢
            tauto)
          rfl
          (by intro r hr; right; simpa using hr)
        simpa [HistoryOp.applyAll, HistoryOp.apply, RankedHistory.applyAll,
          RankedHistory.apply, HistoryOp.executed, UndoManager.undo, Stack.isEmpty,
          Stack.pop, Stack.push] using this
    | redo =>
      cases R with
      | nil =>
        have := ih { undoStack := U, redoStack := [], calls := E.length, last := last }
          (({ undoStack := U.map Prod.snd, redoStack := [] } : UndoManager), s) E
          rfl rfl hn hs rfl hl
        simpa [HistoryOp.applyAll, HistoryOp.apply, RankedHistory.applyAll,
          RankedHistory.apply, HistoryOp.executed, UndoManager.redo, Stack.isEmpty,
          Stack.pop] using this
      | cons x R =>
        have := ih
          { undoStack := x :: U, redoStack := R, calls := E.length, last := some x.1 }
          (({ undoStack := (x :: U).map Prod.snd, redoStack := R.map Prod.snd } :
            UndoManager), x.2.execute s) E
          rfl rfl
          (by
            have h1 : (U.map Prod.fst ++ x.1 :: R.map Prod.fst).Nodup := by
              simpa using hn
            simpa using List.nodup_middle.mp h1)
          (by
            intro y hy
            apply hs y
            simp only [List.mem_append, List.mem_cons] at hy ⊢
            tauto)
          rfl
          (by intro r hr; left; simpa using hr)
        simpa [HistoryOp.applyAll, HistoryOp.apply, RankedHistory.applyAll,
          RankedHistory.apply, HistoryOp.executed, UndoManager.redo, Stack.isEmpty,
          Stack.pop, Stack.push] using this

/-- C14 (amended): in every state reached from a fresh history by a sequence of
`executeCommand` (each call receiving a command object of its own, named by
the rank of the call), `undo` and `redo`: the stacks of the `UndoManager` are
the stacks of ranked commands; no command object is in both stacks or twice in
one; every command on a stack is the one a call of `executeCommand` received;
and the command executed, undone or redone last is on top of exactly one of
the two stacks. -/
theorem stacks_hold_executed_once (s0 : Canvas) (ops : List HistoryOp) :
    (HistoryOp.applyAll (UndoManager.new, s0) ops).1.undoStack
      = (RankedHistory.new.applyAll ops).undoStack.map Prod.snd ∧
    (HistoryOp.applyAll (UndoManager.new, s0) ops).1.redoStack
      = (RankedHistory.new.applyAll ops).redoStack.map Prod.snd ∧
    (((RankedHistory.new.applyAll ops).undoStack
        ++ (RankedHistory.new.applyAll ops).redoStack).map Prod.fst).Nodup ∧
    (∀ x ∈ (RankedHistory.new.applyAll ops).undoStack
        ++ (RankedHistory.new.applyAll ops).redoStack,
      (HistoryOp.executed ops)[x.1]? = some x.2) ∧
    (RankedHistory.new.applyAll ops).calls = (HistoryOp.executed ops).length ∧
    (∀ r, (RankedHistory.new.applyAll ops).last = some r →
      ((RankedHistory.new.applyAll ops).undoStack.head?.map Prod.fst = some r ∧
        (RankedHistory.new.applyAll ops).redoStack.head?.map Prod.fst ≠ some r) ∨
      ((RankedHistory.new.applyAll ops).redoStack.head?.map Prod.fst = some r ∧
        (RankedHistory.new.applyAll ops).undoStack.head?.map Prod.fst ≠ some r)) := by
  obtain ⟨h1, h2, h3, h4, h5, h6⟩ := RankedHistory.stacks_invariant ops RankedHistory.new
    (UndoManager.new, s0) [] rfl rfl (by simp [RankedHistory.new])
    (by simp [RankedHistory.new]) rfl (by simp [RankedHistory.new])
  refine ⟨h1, h2, by simpa using h3, by simpa using h4, by simpa using h5, ?_⟩
  intro r hr
  have hdisj := (List.nodup_append.mp h3).2.2
  have hmem : ∀ (l : List (Nat × Command)), l.head?.map Prod.fst = some r →
      r ∈ l.map Prod.fst := by
    intro l hl
    cases l with
    | nil => simp at hl
    | cons x l => simp at hl; simp [hl]
  have hboth : ¬ ((RankedHistory.new.applyAll ops).undoStack.head?.map Prod.fst = some r ∧
      (RankedHistory.new.applyAll ops).redoStack.head?.map Prod.fst = some r) := by
    rintro ⟨hu, hre⟩
    exact hdisj (hmem _ hu) (hmem _ hre)
  rcases h6 r hr with hu | hre
  · exact Or.inl ⟨hu, fun hre => hboth ⟨hu, hre⟩⟩
  · exact Or.inr ⟨hre, fun hu => hboth ⟨hu, hre⟩⟩

/-- Witness of C14 (amended): two red commands with equal fields are executed
and the second one is undone; one object is on `undoStack`, the other on
`redoStack`, and the ranks keep them apart although the stacks hold equal
values. -/
theorem stacks_hold_executed_once_witness :
    (RankedHistory.new.applyAll
        [HistoryOp.executeCommand (Command.ChangeColorCommand (some 0) "red" (some "red")),
          HistoryOp.executeCommand (Command.ChangeColorCommand (some 0) "red" (some "red")),
          HistoryOp.undo]).undoStack
      = [(0, Command.ChangeColorCommand (some 0) "red" (some "red"))] ∧
    (RankedHistory.new.applyAll
        [HistoryOp.executeCommand (Command.ChangeColorCommand (some 0) "red" (some "red")),
          HistoryOp.executeCommand (Command.ChangeColorCommand (some 0) "red" (some "red")),
          HistoryOp.undo]).redoStack
      = [(1, Command.ChangeColorCommand (some 0) "red" (some "red"))] ∧
    (((RankedHistory.new.applyAll
        [HistoryOp.executeCommand (Command.ChangeColorCommand (some 0) "red" (some "red")),
          HistoryOp.executeCommand (Command.ChangeColorCommand (some 0) "red" (some "red")),
          HistoryOp.undo]).undoStack
      ++ (RankedHistory.new.applyAll
        [HistoryOp.executeCommand (Command.ChangeColorCommand (some 0) "red" (some "red")),
          HistoryOp.executeCommand (Command.ChangeColorCommand (some 0) "red" (some "red")),
          HistoryOp.undo]).redoStack).map Prod.fst).Nodup :=
  ⟨by decide, by decide,
    (stacks_hold_executed_once
      { lines := [⟨[1, 1, 2, 2], some "red", 2⟩], dessin := [0], temporaire := [] }
      [HistoryOp.executeCommand (Command.ChangeColorCommand (some 0) "red" (some "red")),
        HistoryOp.executeCommand (Command.ChangeColorCommand (some 0) "red" (some "red")),
        HistoryOp.undo]).2.2.1⟩

/-! ## Stages that differ by colors and widths only -/

namespace Canvas

theorem SameShape.refl (s : Canvas) : SameShape s s := ⟨rfl, rfl, rfl, fun _ => rfl⟩

theorem SameShape.trans {s t u : Canvas} (h1 : SameShape s t) (h2 : SameShape t u) :
    SameShape s u :=
  ⟨h2.1.trans h1.1, h2.2.1.trans h1.2.1, h2.2.2.1.trans h1.2.2.1,
    fun j => (h2.2.2.2 j).trans (h1.2.2.2 j)⟩

theorem sameShape_setStroke (s : Canvas) (id : Nat) (c : Option String) :
    SameShape s (s.setStroke id c) :=
  ⟨setStroke_dessin _ _ _, setStroke_temporaire _ _ _, setStroke_lines_length _ _ _,
    fun _ => setStroke_points _ _ _ _⟩

theorem setStrokeWidth_lines_getElem? (s : Canvas) (id : Nat) (width : Nat) (j : Nat) :
    (s.setStrokeWidth id width).lines[j]? =
      if id = j then (s.lines[j]?).map (fun l => { l with strokeWidth := width })
      else s.lines[j]? := by
  unfold setStrokeWidth
  cases h : s.lines[id]? with
  | none =>
    by_cases hj : id = j
    · subst hj; simp [h]
    · simp [hj]
  | some l =>
    have hlt : id < s.lines.length := (List.getElem?_eq_some.mp h).1
    by_cases hj : id = j
    · subst hj; simp [List.getElem?_set_self hlt, h]
    · simp [hj, List.getElem?_set_ne hj]

theorem sameShape_setStrokeWidth (s : Canvas) (id : Nat) (width : Nat) :
    SameShape s (s.setStrokeWidth id width) := by
  refine ⟨?_, ?_, ?_, ?_⟩
  · unfold setStrokeWidth; cases s.lines[id]? <;> rfl
  · unfold setStrokeWidth; cases s.lines[id]? <;> rfl
  · unfold setStrokeWidth; cases s.lines[id]? <;> simp
  · intro j
    simp only [points, setStrokeWidth_lines_getElem?]
    by_cases hj : id = j
    · simp only [hj, if_true]; cases s.lines[j]? <;> rfl
    · simp [hj]

theorem sameShape_foldl_setStrokeWidth (ids : List Nat) (width : Nat) (s : Canvas) :
    SameShape s (ids.foldl (fun t l => t.setStrokeWidth l width) s) := by
  induction ids generalizing s with
  | nil => exact SameShape.refl s
  | cons i ids ih =>
    exact SameShape.trans (sameShape_setStrokeWidth s i width) (ih _)

end Canvas

/-- Consistency depends on the stage through its layers and points only. -/
theorem Inv.of_sameShape {w : World} (hinv : Inv w) {t : Canvas}
    (h : Canvas.SameShape w.stage t) (um : UndoManager) (sel : Option Nat) :
    Inv { w with stage := t, undoManager := um, selectedLine := sel } := by
  obtain ⟨hd, ht, hlen, hpts⟩ := h
  constructor
  · intro j hj
    simp only [hd, hlen] at hj ⊢
    exact hinv.dessin_lt j hj
  · intro j hj
    simp only [ht, hlen] at hj ⊢
    exact hinv.temporaire_lt j hj
  · simpa only [ht] using hinv.temporaire_nodup
  · intro j hj
    simp only [hd]
    exact hinv.polyline_not_drawn j hj
  · intro hst
    obtain ⟨id, pts, hp, hpt, h1, h2⟩ := hinv.building hst
    exact ⟨id, pts, hp, by simpa only [hpts] using hpt, h1, h2⟩
  · intro j hj
    simp only [hd] at hj
    simpa only [hpts] using hinv.committed j hj

/-! ## Consistency with the history is kept by the buttons -/

theorem Canvas.remove_eq_of_mem_dessin {s : Canvas} {id : Nat} (h : id ∈ s.dessin) :
    s.remove id = { s with dessin := s.dessin.erase id } := by
  unfold Canvas.remove
  rw [Canvas.getParent_of_mem_dessin h]

theorem Canvas.add_dessin_eq_of_not_mem {s : Canvas} {id : Nat} (h : id ∉ s.dessin) :
    s.add LayerId.dessin id
      = { s with dessin := s.dessin ++ [id], temporaire := s.temporaire.erase id } := by
  unfold Canvas.add Canvas.getParent
  by_cases ht : id ∈ s.temporaire
  · simp [h, ht, Canvas.remove, Canvas.getParent, Canvas.push]
  · simp [h, ht, Canvas.push, List.erase_of_not_mem ht]

theorem sameShape_changeColor (line : Option Nat) (n : String) (old : Option String)
    (s : Canvas) :
    Canvas.SameShape s ((Command.ChangeColorCommand line n old).execute s) ∧
    Canvas.SameShape s ((Command.ChangeColorCommand line n old).undo s) := by
  cases line with
  | none => exact ⟨Canvas.SameShape.refl s, Canvas.SameShape.refl s⟩
  | some id => exact ⟨Canvas.sameShape_setStroke s id _, Canvas.sameShape_setStroke s id _⟩

namespace ProgInv

/-- Consistency with the history depends on the stage through its layers and
points, and on the stacks through their `AddLineCommand`s. -/
theorem of_sameShape_stacks {w : World} (h : ProgInv w) {t : Canvas}
    (hs : Canvas.SameShape w.stage t) (um : UndoManager) (sel : Option Nat)
    (hu : addedLines um.undoStack = addedLines w.undoManager.undoStack)
    (hr : (addedLines um.redoStack).Sublist (addedLines w.undoManager.redoStack))
    (hl : ∀ id layer, Command.AddLineCommand id layer ∈ um.undoStack ++ um.redoStack →
      Command.AddLineCommand id layer ∈
        w.undoManager.undoStack ++ w.undoManager.redoStack) :
    ProgInv { w with stage := t, undoManager := um, selectedLine := sel } := by
  constructor
  · exact h.base.of_sameShape hs um sel
  · simp only [hs.1, hu]; exact h.drawn
  · simp only [hu]
    exact h.added_nodup.sublist (List.Sublist.append (List.Sublist.refl _) hr)
  · intro id layer hm
    exact h.layers id layer (hl id layer hm)
  · intro id hid
    simp only [hs.2.2.1]
    exact h.redo_lt id (hr.subset hid)
  · intro id hp hid
    exact h.polyline_fresh id hp (hr.subset hid)
  · intro id hid
    simp only [hs.2.2.2]
    exact h.redo_bounds id (hr.subset hid)

theorem of_recolor {w : World} (h : ProgInv w) (color : String) :
    ProgInv (w.recolor color) := by
  unfold World.recolor
  cases hsel : w.selectedLine with
  | none => exact h
  | some line =>
    have := h.of_sameShape_stacks (Canvas.sameShape_setStroke w.stage line (some color))
      { undoStack := Stack.push w.undoManager.undoStack
          (Command.newChangeColor w.stage (some line) color)
        redoStack := [] }
      (some line) rfl (by simp [addedLines]) (by
        intro id layer hm
        simp only [Stack.push, Command.newChangeColor, List.append_nil, List.mem_cons] at hm
        rcases hm with hm | hm
        · cases hm
        · exact List.mem_append_left _ hm)
    simpa [UndoManager.executeCommand, Command.execute, Command.newChangeColor] using this

theorem of_select {w : World} (h : ProgInv w) (id : Nat) : ProgInv (w.select id) := by
  unfold World.select
  by_cases hid : id ∈ w.stage.dessin
  · simp only [hid, if_true]
    exact h.of_sameShape_stacks
      (Canvas.SameShape.trans (Canvas.sameShape_foldl_setStrokeWidth _ 2 w.stage)
        (Canvas.sameShape_setStrokeWidth _ id 4))
      w.undoManager (some id) rfl (List.Sublist.refl _) (fun _ _ hm => hm)
  · simp only [hid, if_false]
    exact h

end ProgInv

namespace ProgInv

theorem of_undo_addLine {w : World} (h : ProgInv w) {id : Nat} {layer : LayerId}
    {U : Stack Command}
    (hU : w.undoManager.undoStack = Command.AddLineCommand id layer :: U) :
    ProgInv { w with
      undoManager :=
        { undoStack := U
          redoStack := Command.AddLineCommand id layer :: w.undoManager.redoStack }
      stage := w.stage.remove id } := by
  have hdr : w.stage.dessin = (addedLines U).reverse ++ [id] := by
    rw [h.drawn, hU]; simp [addedLines]
  have hnd : (id :: (addedLines U ++ addedLines w.undoManager.redoStack)).Nodup := by
    have := h.added_nodup
    rw [hU] at this
    simpa [addedLines] using this
  have hidU : id ∉ addedLines U := fun hm =>
    (List.nodup_cons.mp hnd).1 (List.mem_append_left _ hm)
  have hmem : id ∈ w.stage.dessin := by rw [hdr]; simp
  have herase : w.stage.dessin.erase id = (addedLines U).reverse := by
    rw [hdr, List.erase_append_right _ (by simpa using hidU)]
    simp
  rw [Canvas.remove_eq_of_mem_dessin hmem]
  constructor
  · constructor
    · intro j hj
      exact h.base.dessin_lt j (List.mem_of_mem_erase hj)
    · exact h.base.temporaire_lt
    · exact h.base.temporaire_nodup
    · intro j hj hm
      exact h.base.polyline_not_drawn j hj (List.mem_of_mem_erase hm)
    · exact h.base.building
    · intro j hj
      exact h.base.committed j (List.mem_of_mem_erase hj)
  · exact herase
  · exact List.nodup_middle.mpr hnd
  · intro j layer1 hm
    apply h.layers j layer1
    rw [hU]
    simp only [List.mem_append, List.mem_cons] at hm ⊢
    tauto
  · intro j hj
    simp only [addedLines, List.mem_cons] at hj
    rcases hj with hj | hj
    · rw [hj]; exact h.base.dessin_lt id hmem
    · exact h.redo_lt j hj
  · intro j hp hj
    simp only [addedLines, List.mem_cons] at hj
    rcases hj with hj | hj
    · exact h.base.polyline_not_drawn j hp (hj ▸ hmem)
    · exact h.polyline_fresh j hp hj
  · intro j hj
    simp only [addedLines, List.mem_cons] at hj
    rcases hj with hj | hj
    · rw [hj]; exact h.base.committed id hmem
    · exact h.redo_bounds j hj

theorem of_redo_addLine {w : World} (h : ProgInv w) {id : Nat} {layer : LayerId}
    {R : Stack Command}
    (hR : w.undoManager.redoStack = Command.AddLineCommand id layer :: R) :
    layer = LayerId.dessin ∧
    ProgInv { w with
      undoManager :=
        { undoStack := Command.AddLineCommand id layer :: w.undoManager.undoStack
          redoStack := R }
      stage := w.stage.add LayerId.dessin id } := by
  have hlayer : layer = LayerId.dessin :=
    h.layers id layer (by rw [hR]; simp)
  have hnd : (id :: (addedLines w.undoManager.undoStack ++ addedLines R)).Nodup := by
    have := h.added_nodup
    rw [hR] at this
    exact List.nodup_middle.mp (by simpa [addedLines] using this)
  have hidU : id ∉ addedLines w.undoManager.undoStack := fun hm =>
    (List.nodup_cons.mp hnd).1 (List.mem_append_left _ hm)
  have hnot : id ∉ w.stage.dessin := by rw [h.drawn]; simpa using hidU
  have hidR : id ∈ addedLines w.undoManager.redoStack := by rw [hR]; simp [addedLines]
  have hsub : ∀ j ∈ addedLines R, j ∈ addedLines w.undoManager.redoStack := by
    intro j hj; rw [hR]; simp [addedLines, hj]
  refine ⟨hlayer, ?_⟩
  rw [Canvas.add_dessin_eq_of_not_mem hnot]
  constructor
  · constructor
    · intro j hj
      simp only [List.mem_append, List.mem_singleton] at hj
      rcases hj with hj | hj
      · exact h.base.dessin_lt j hj
      · rw [hj]; exact h.redo_lt id hidR
    · intro j hj
      exact h.base.temporaire_lt j (List.mem_of_mem_erase hj)
    · exact h.base.temporaire_nodup.erase id
    · intro j hp hm
      simp only [List.mem_append, List.mem_singleton] at hm
      rcases hm with hm | hm
      · exact h.base.polyline_not_drawn j hp hm
      · exact h.polyline_fresh j hp (hm ▸ hidR)
    · exact h.base.building
    · intro j hj
      simp only [List.mem_append, List.mem_singleton] at hj
      rcases hj with hj | hj
      · exact h.base.committed j hj
      · rw [hj]; exact h.redo_bounds id hidR
  · simp [addedLines, h.drawn]
  · simpa [addedLines] using hnd
  · intro j layer1 hm
    apply h.layers j layer1
    rw [hR]
    simp only [List.mem_append, List.mem_cons] at hm ⊢
    tauto
  · intro j hj
    exact h.redo_lt j (hsub j hj)
  · intro j hp hj
    exact h.polyline_fresh j hp (hsub j hj)
  · intro j hj
    exact h.redo_bounds j (hsub j hj)

end ProgInv

namespace ProgInv

theorem of_undo {w : World} (h : ProgInv w) : ProgInv w.undo := by
  unfold World.undo UndoManager.undo
  cases hU : w.undoManager.undoStack with
  | nil =>
    simp only [Stack.isEmpty, if_true]
    exact h
  | cons c U =>
    simp only [Stack.isEmpty, Stack.pop, Stack.push]
    cases c with
    | AddLineCommand id layer => exact h.of_undo_addLine hU
    | ChangeColorCommand line n old =>
      exact h.of_sameShape_stacks (sameShape_changeColor line n old w.stage).2
        { undoStack := U
          redoStack := Command.ChangeColorCommand line n old :: w.undoManager.redoStack }
        w.selectedLine (by rw [hU]; rfl) (by simp [addedLines]) (by
          intro id layer hm
          rw [hU]
          simp only [List.mem_append, List.mem_cons] at hm ⊢
          tauto)

theorem of_redo {w : World} (h : ProgInv w) : ProgInv w.redo := by
  unfold World.redo UndoManager.redo
  cases hR : w.undoManager.redoStack with
  | nil =>
    simp only [Stack.isEmpty, if_true]
    exact h
  | cons c R =>
    simp only [Stack.isEmpty, Stack.pop, Stack.push]
    cases c with
    | AddLineCommand id layer =>
      obtain ⟨hlayer, hp⟩ := h.of_redo_addLine hR
      subst hlayer
      exact hp
    | ChangeColorCommand line n old =>
      exact h.of_sameShape_stacks (sameShape_changeColor line n old w.stage).1
        { undoStack := Command.ChangeColorCommand line n old :: w.undoManager.undoStack
          redoStack := R }
        w.selectedLine (by simp [addedLines])
        (by rw [hR]; simp [addedLines]) (by
          intro id layer hm
          rw [hR]
          simp only [List.mem_append, List.mem_cons] at hm ⊢
          tauto)

end ProgInv

/-! ## The effect of an event, in the five shapes it can take -/

theorem World.step_cases {w : World} (hinv : Inv w) (e : Event) :
    ∃ w1, w.step e = some w1 ∧
      (w1 = w ∨
       (∃ pts, w1 = w.withTransient MState.onePoint pts) ∨
       (∃ id l pts st, w.polyline = some id ∧ w.stage.lines[id]? = some l ∧
          w1 = { w with state := st, stage := w.stage.setPoints id pts }) ∨
       (∃ id, w.polyline = some id ∧
          w1 = { w with state := MState.idle, stage := w.stage.remove id }) ∨
       (∃ id l q, w.polyline = some id ∧ w.stage.lines[id]? = some l ∧
          ((e = Event.key "Enter" ∧ ∃ a b, l.points = q ++ [a, b]) ∨
            (∃ pos, e = Event.MOUSECLICK pos ∧ q = l.points)) ∧
          w1 =
            { state := MState.idle
              polyline := none
              stage :=
                { lines := w.stage.lines.set id { l with points := q, stroke := some "black" }
                  dessin := w.stage.dessin ++ [id]
                  temporaire := w.stage.temporaire.erase id }
              undoManager :=
                { undoStack := Stack.push w.undoManager.undoStack
                    (Command.AddLineCommand id LayerId.dessin)
                  redoStack := [] }
              selectedLine := w.selectedLine })) := by
  cases hst : w.state with
  | idle =>
    cases e with
    | MOUSECLICK pos =>
      refine ⟨_, World.step_idle_click hst pos, Or.inr (Or.inl ⟨[pos.x, pos.y, pos.x, pos.y], ?_⟩)⟩
      rw [Inv.createLine_eq hinv pos]; rfl
    | MOUSEMOVE pos => exact ⟨w, World.step_idle_move hst pos, Or.inl rfl⟩
    | key k => exact ⟨w, World.step_idle_key hst k, Or.inl rfl⟩
  | onePoint =>
    have hne : w.state ≠ MState.idle := by rw [hst]; decide
    obtain ⟨id, l, hp, hl, h1, _⟩ := World.building_line hinv hne
    have hlen := h1 hst
    cases e with
    | MOUSECLICK pos =>
      refine ⟨_, ?_, Or.inr (Or.inr (Or.inl
        ⟨id, l, l.points ++ [pos.x, pos.y], MState.manyPoints, hp, hl, rfl⟩))⟩
      rw [World.step_onePoint_click hst, World.addPoint_eq pos hp hl]; rfl
    | MOUSEMOVE pos =>
      obtain ⟨q, a, b, hq, _⟩ := exists_append_pair l.points (by omega)
      refine ⟨_, ?_, Or.inr (Or.inr (Or.inl
        ⟨id, l, q ++ [pos.x, pos.y], w.state, hp, hl, rfl⟩))⟩
      rw [World.step_onePoint_move hst, World.setLastPoint_eq q a b pos hp hl hq]
    | key k =>
      rw [World.step_onePoint_key hst]
      by_cases hk : k = "Escape"
      · simp only [hk, if_true, World.abandon_eq hp, Option.map]
        exact ⟨_, rfl, Or.inr (Or.inr (Or.inr (Or.inl ⟨id, hp, rfl⟩)))⟩
      · simp only [hk, if_false]
        exact ⟨w, rfl, Or.inl rfl⟩
  | manyPoints =>
    have hne : w.state ≠ MState.idle := by rw [hst]; decide
    obtain ⟨id, l, hp, hl, _, h2⟩ := World.building_line hinv hne
    obtain ⟨hlo, _, _⟩ := h2 hst
    have hnd := hinv.polyline_not_drawn id hp
    cases e with
    | MOUSECLICK pos =>
      rw [World.step_manyPoints_click hst, World.pasPlein_eq hp hl]
      by_cases hfull : l.points.length < MAX_POINTS * 2
      · simp only [hfull, decide_True]
        exact ⟨_, World.addPoint_eq pos hp hl, Or.inr (Or.inr (Or.inl
          ⟨id, l, l.points ++ [pos.x, pos.y], w.state, hp, hl, rfl⟩))⟩
      · simp only [hfull, decide_False]
        refine ⟨_, World.addPoint_saveLine_eq hinv pos hp hl,
          Or.inr (Or.inr (Or.inr (Or.inr ⟨id, l, l.points, hp, hl, Or.inr ⟨pos, rfl, rfl⟩, rfl⟩)))⟩
    | MOUSEMOVE pos =>
      obtain ⟨q, a, b, hq, _⟩ := exists_append_pair l.points (by omega)
      refine ⟨_, ?_, Or.inr (Or.inr (Or.inl
        ⟨id, l, q ++ [pos.x, pos.y], w.state, hp, hl, rfl⟩))⟩
      rw [World.step_manyPoints_move hst, World.setLastPoint_eq q a b pos hp hl hq]
    | key k =>
      rw [World.step_manyPoints_key hst]
      obtain ⟨q, a, b, hq, hql⟩ := exists_append_pair l.points (by omega)
      by_cases hk : k = "Escape"
      · simp only [hk, if_true, World.abandon_eq hp, Option.map]
        exact ⟨_, rfl, Or.inr (Or.inr (Or.inr (Or.inl ⟨id, hp, rfl⟩)))⟩
      · simp only [hk, if_false]
        by_cases hk2 : k = "Enter"
        · simp only [hk2, if_true,
            World.saveLine_eq q a b hp hl hq hnd hinv.temporaire_nodup, Option.map, World.goto]
          exact ⟨_, rfl, Or.inr (Or.inr (Or.inr (Or.inr
            ⟨id, l, q, hp, hl, Or.inl ⟨trivial, a, b, hq⟩, rfl⟩)))⟩
        · simp only [hk2, if_false]
          by_cases hk3 : k = "Backspace"
          · simp only [hk3, if_true, World.plusDeDeuxPoints_eq hp hl]
            obtain ⟨q2, c, d, hq2, _⟩ := exists_append_pair q (by omega)
            have hq4 : l.points = q2 ++ [c, d, a, b] := by rw [hq, hq2]; simp
            have hrem := World.removeLastPoint_eq q2 c d a b hp hl hq4
            by_cases h6 : l.points.length > 6
            · simp only [h6, decide_True, hrem, Option.map, World.goto]
              exact ⟨_, rfl, Or.inr (Or.inr (Or.inl
                ⟨id, l, q2 ++ [a, b], MState.manyPoints, hp, hl, rfl⟩))⟩
            · simp only [h6, decide_False, hrem, Option.map, World.goto]
              exact ⟨_, rfl, Or.inr (Or.inr (Or.inl
                ⟨id, l, q2 ++ [a, b], MState.onePoint, hp, hl, rfl⟩))⟩
          · simp only [hk3, if_false]
            exact ⟨w, rfl, Or.inl rfl⟩

/-! ## Consistency with the history is kept by the machine -/

namespace ProgInv

/-- A transition that keeps the history and the drawing layer, creates lines
only, and leaves the lines of undone commands alone. -/
theorem of_frame {w w1 : World} (h : ProgInv w) (hb : Inv w1)
    (hum : w1.undoManager = w.undoManager) (hd : w1.stage.dessin = w.stage.dessin)
    (hlen : w.stage.lines.length ≤ w1.stage.lines.length)
    (hpoly : ∀ id, w1.polyline = some id → id ∉ addedLines w.undoManager.redoStack)
    (hpts : ∀ id ∈ addedLines w.undoManager.redoStack,
      w1.stage.points id = w.stage.points id) :
    ProgInv w1 := by
  constructor
  · exact hb
  · rw [hum, hd]; exact h.drawn
  · rw [hum]; exact h.added_nodup
  · rw [hum]; exact h.layers
  · rw [hum]
    intro id hid
    exact Nat.lt_of_lt_of_le (h.redo_lt id hid) hlen
  · rw [hum]; exact hpoly
  · rw [hum]
    intro id hid
    rw [hpts id hid]
    exact h.redo_bounds id hid

/-- The commit of the polyline under construction. -/
theorem of_commit {w : World} (h : ProgInv w) {id : Nat} {l : Line} {q : List Int}
    (hp : w.polyline = some id)
    (hb : Inv
      { state := MState.idle
        polyline := none
        stage :=
          { lines := w.stage.lines.set id { l with points := q, stroke := some "black" }
            dessin := w.stage.dessin ++ [id]
            temporaire := w.stage.temporaire.erase id }
        undoManager :=
          { undoStack := Stack.push w.undoManager.undoStack
              (Command.AddLineCommand id LayerId.dessin)
            redoStack := [] }
        selectedLine := w.selectedLine }) :
    ProgInv
      { state := MState.idle
        polyline := none
        stage :=
          { lines := w.stage.lines.set id { l with points := q, stroke := some "black" }
            dessin := w.stage.dessin ++ [id]
            temporaire := w.stage.temporaire.erase id }
        undoManager :=
          { undoStack := Stack.push w.undoManager.undoStack
              (Command.AddLineCommand id LayerId.dessin)
            redoStack := [] }
        selectedLine := w.selectedLine } := by
  have hnd := h.base.polyline_not_drawn id hp
  have hidU : id ∉ addedLines w.undoManager.undoStack := by
    intro hm
    apply hnd
    rw [h.drawn]
    simpa using hm
  have hnU : (addedLines w.undoManager.undoStack).Nodup :=
    (List.nodup_append.mp h.added_nodup).1
  constructor
  · exact hb
  · simp [Stack.push, addedLines, h.drawn]
  · simpa [Stack.push, addedLines] using ⟨hidU, hnU⟩
  · intro j layer hm
    simp only [Stack.push, List.append_nil, List.mem_cons] at hm
    rcases hm with hm | hm
    · cases hm; rfl
    · exact h.layers j layer (List.mem_append_left _ hm)
  · intro j hj; simp [addedLines] at hj
  · intro j hj; simp at hj
  · intro j hj; simp [addedLines] at hj

theorem of_step {w : World} (h : ProgInv w) (e : Event) :
    ∃ w1, w.step e = some w1 ∧ ProgInv w1 := by
  obtain ⟨w1, hsend, hb, _⟩ := World.step_consistent h.base e
  obtain ⟨w2, hsend2, hcases⟩ := World.step_cases h.base e
  rw [hsend] at hsend2
  cases hsend2
  refine ⟨w1, hsend, ?_⟩
  rcases hcases with h0 | ⟨pts, h1⟩ | ⟨id, l, pts, st, hp, hl, h2⟩ | ⟨id, hp, h3⟩ |
    ⟨id, l, q, hp, hl, _, h4⟩
  · rw [h0]; exact h
  · subst h1
    refine h.of_frame hb rfl rfl (by simp [World.withTransient]) ?_ ?_
    · intro id hid hm
      simp only [World.withTransient, Option.some.injEq] at hid
      exact Nat.lt_irrefl _ (hid ▸ h.redo_lt id hm)
    · intro id hid
      have hlt := h.redo_lt id hid
      simp [World.withTransient, Canvas.points, List.getElem?_append_left hlt]
  · subst h2
    refine h.of_frame hb rfl (Canvas.setPoints_dessin _ _ _)
      (by simp [Canvas.setPoints_lines_length]) ?_ ?_
    · intro j hj
      exact h.polyline_fresh j hj
    · intro j hj
      have hne : id ≠ j := fun e1 => h.polyline_fresh id hp (e1 ▸ hj)
      exact Canvas.setPoints_points_of_ne _ _ hne
  · subst h3
    have hnd := h.base.polyline_not_drawn id hp
    refine h.of_frame hb rfl (Canvas.remove_dessin_of_not_mem hnd)
      (by simp [Canvas.remove_lines]) ?_ ?_
    · intro j hj
      exact h.polyline_fresh j hj
    · intro j _
      simp [Canvas.points, Canvas.remove_lines]
  · subst h4
    exact h.of_commit hp hb

theorem of_input {w : World} (h : ProgInv w) (i : Input) :
    ∃ w1, w.input i = some w1 ∧ ProgInv w1 := by
  cases i with
  | event e => exact h.of_step e
  | undo => exact ⟨_, rfl, h.of_undo⟩
  | redo => exact ⟨_, rfl, h.of_redo⟩
  | select id => exact ⟨_, rfl, h.of_select id⟩
  | colorRed => exact ⟨_, rfl, h.of_recolor "red"⟩
  | colorBlue => exact ⟨_, rfl, h.of_recolor "blue"⟩

theorem holds_init : ProgInv World.init := by
  constructor
  · exact Inv.init
  · rfl
  · simp [World.init, UndoManager.new, addedLines]
  · intro id layer hm; simp [World.init, UndoManager.new] at hm
  · intro id hid; simp [World.init, UndoManager.new, addedLines] at hid
  · intro id hid; simp [World.init] at hid
  · intro id hid; simp [World.init, UndoManager.new, addedLines] at hid

theorem of_runInputs {w : World} (h : ProgInv w) (is : List Input) :
    ∃ w1, w.runInputs is = some w1 ∧ ProgInv w1 := by
  induction is generalizing w with
  | nil => exact ⟨w, rfl, h⟩
  | cons i is ih =>
    obtain ⟨w1, h1, hp1⟩ := h.of_input i
    obtain ⟨w2, h2, hp2⟩ := ih hp1
    exact ⟨w2, by simp [World.runInputs, h1, h2], hp2⟩

end ProgInv

/-! ## Reachable program states -/

/-- C18: every sequence of inputs (events of the machine, undo, redo,
selections, color buttons) applied from the initial state runs without
exception of a guard or an action; in the state reached, when the machine is
in `onePoint` the polyline under construction exists and holds 4 coordinates
(1 real point and the provisional one), when it is in `manyPoints` it exists
and holds an even number of coordinates, at least 6 (2 real points or more and
the provisional one); and in that state no guard or action raises on any event,
so that `polylineService.send` succeeds on every event but the key `*`. -/
theorem transient_polyline_shape (is : List Input) :
    ∃ w, World.init.runInputs is = some w ∧
      (w.state = MState.onePoint →
        ∃ id pts, w.polyline = some id ∧ w.stage.points id = some pts ∧
          pts.length = 2 * (1 + 1)) ∧
      (w.state = MState.manyPoints →
        ∃ id pts, w.polyline = some id ∧ w.stage.points id = some pts ∧
          2 * (2 + 1) ≤ pts.length ∧ pts.length % 2 = 0) ∧
      (∀ e : Event, ∃ w1, w.step e = some w1 ∧
        (e ≠ Event.key "*" → w.send e = some w1)) := by
  obtain ⟨w, hrun, hp⟩ := ProgInv.holds_init.of_runInputs is
  refine ⟨w, hrun, ?_, ?_, ?_⟩
  · intro hst
    obtain ⟨id, pts, hpoly, hpts, h1, _⟩ := hp.base.building (by rw [hst]; decide)
    exact ⟨id, pts, hpoly, hpts, h1 hst⟩
  · intro hst
    obtain ⟨id, pts, hpoly, hpts, _, h2⟩ := hp.base.building (by rw [hst]; decide)
    exact ⟨id, pts, hpoly, hpts, (h2 hst).1, (h2 hst).2.2⟩
  · intro e
    obtain ⟨w1, h1, _⟩ := hp.of_step e
    exact ⟨w1, h1, fun he => by rw [World.send_eq_step w he, h1]⟩

/-- C19: in every state reached from the initial state by events of the
machine, recolor requests, selections, `undo()` and `redo()`, the drawing layer
holds exactly the lines of the `AddLineCommand`s of `undoStack`, oldest first,
each once, and no line of an `AddLineCommand` of `redoStack` is on it. -/
theorem drawing_layer_matches_undoStack (is : List Input) :
    ∃ w, World.init.runInputs is = some w ∧
      w.stage.dessin = (addedLines w.undoManager.undoStack).reverse ∧
      w.stage.dessin.Nodup ∧
      (∀ id ∈ addedLines w.undoManager.redoStack, id ∉ w.stage.dessin) := by
  obtain ⟨w, hrun, hp⟩ := ProgInv.holds_init.of_runInputs is
  have hn := List.nodup_append.mp hp.added_nodup
  refine ⟨w, hrun, hp.drawn, ?_, ?_⟩
  · rw [hp.drawn]
    exact List.nodup_reverse.mpr hn.1
  · intro id hid hm
    rw [hp.drawn] at hm
    exact hn.2.2 (List.mem_reverse.mp hm) hid

/-! ## The history and the committed lines in reachable program states -/

theorem ProgInv.of_reached {is : List Input} {w : World}
    (hrun : World.init.runInputs is = some w) : ProgInv w := by
  obtain ⟨w1, h1, hp⟩ := ProgInv.holds_init.of_runInputs is
  rw [hrun] at h1
  cases h1
  exact hp

/-- C9: in every state reached from the initial state by any inputs (events of
the machine, undo, redo, selections, color buttons), every transition other
than `Enter` in `manyPoints` and the forced-commit click (a click in
`manyPoints` when `pasPlein` fails) leaves `undoStack`, `redoStack` and the
drawing layer unchanged; `Escape` outside `idle` takes the polyline under
construction off the layers and goes to `idle` with the history untouched; and
from the initial state, a click then `Escape` leaves `undoStack` empty, so a
following `undo()` changes nothing. -/
theorem history_changes_only_by_commit (is : List Input) (w : World)
    (hrun : World.init.runInputs is = some w) :
    (∀ e : Event,
      ¬ (w.state = MState.manyPoints ∧
          (e = Event.key "Enter" ∨
            ∃ pos, e = Event.MOUSECLICK pos ∧ w.pasPlein = some false)) →
      ∃ w1, w.step e = some w1 ∧ (e ≠ Event.key "*" → w.send e = some w1) ∧
        w1.undoManager = w.undoManager ∧
        w1.stage.dessin = w.stage.dessin ∧ w1.stage.drawing = w.stage.drawing) ∧
    (w.state ≠ MState.idle →
      ∃ id w1, w.polyline = some id ∧ w.send (Event.key "Escape") = some w1 ∧
        w1.state = MState.idle ∧ id ∉ w1.stage.temporaire ∧ id ∉ w1.stage.dessin ∧
        w1.undoManager = w.undoManager) ∧
    (∀ p : Pos, ∃ w1 w2,
      World.init.send (Event.MOUSECLICK p) = some w1 ∧
        w1.send (Event.key "Escape") = some w2 ∧
        w2.state = MState.idle ∧ w2.undoManager.undoStack = [] ∧ w2.undo = w2) := by
  have hinv : Inv w := (ProgInv.of_reached hrun).base
  refine ⟨?_, ?_, ?_⟩
  · intro e hc
    obtain ⟨w1, h1, _, h3⟩ := World.step_consistent hinv e
    obtain ⟨ha, hb, hd⟩ := h3 hc
    exact ⟨w1, h1, fun he => by rw [World.send_eq_step w he, h1], ha, hd, hb⟩
  · intro hst
    obtain ⟨id, l, hp, _, _, _⟩ := World.building_line hinv hst
    have hnd := hinv.polyline_not_drawn id hp
    have hnot : id ∉ w.stage.temporaire.erase id := by
      intro hm
      exact ((List.Nodup.mem_erase_iff hinv.temporaire_nodup).mp hm).1 rfl
    refine ⟨id, { w with state := MState.idle, stage := w.stage.remove id }, hp, ?_, rfl,
      ?_, ?_, rfl⟩
    · rw [World.send_key w (by decide)]
      cases hs : w.state with
      | idle => exact absurd hs hst
      | onePoint =>
        rw [World.step_onePoint_key hs]
        simp [World.abandon_eq hp, World.goto]
      | manyPoints =>
        rw [World.step_manyPoints_key hs]
        simp [World.abandon_eq hp, World.goto]
    · simpa [Canvas.remove_eq_of_not_mem_dessin hnd] using hnot
    · simpa [Canvas.remove_eq_of_not_mem_dessin hnd] using hnd
  · intro p
    simp [World.send, World.step, World.init, World.createLine, World.goto, World.abandon,
      Canvas.newLine, Canvas.add, Canvas.getParent, Canvas.push, Canvas.remove,
      UndoManager.new, World.undo, UndoManager.undo, Stack.isEmpty]

/-- Witness of C9: a line is committed and undone, so that `redoStack` holds
its command; a click then starts a new polyline and leaves both stacks and the
drawing layer as they are. -/
theorem history_changes_only_by_commit_witness :
    World.init.runInputs
        [Input.event (Event.MOUSECLICK ⟨1, 1⟩), Input.event (Event.MOUSEMOVE ⟨2, 2⟩),
          Input.event (Event.MOUSECLICK ⟨2, 2⟩), Input.event (Event.key "Enter"),
          Input.undo]
      = some
        { state := MState.idle, polyline := none,
          stage := { lines := [⟨[1, 1, 2, 2], some "black", 2⟩], dessin := [],
                     temporaire := [] },
          undoManager :=
            { undoStack := [], redoStack := [Command.AddLineCommand 0 LayerId.dessin] },
          selectedLine := none } ∧
    ∃ w1, World.send
        { state := MState.idle, polyline := none,
          stage := { lines := [⟨[1, 1, 2, 2], some "black", 2⟩], dessin := [],
                     temporaire := [] },
          undoManager :=
            { undoStack := [], redoStack := [Command.AddLineCommand 0 LayerId.dessin] },
          selectedLine := none }
        (Event.MOUSECLICK ⟨5, 5⟩) = some w1 ∧
      w1.undoManager
        = { undoStack := [], redoStack := [Command.AddLineCommand 0 LayerId.dessin] } ∧
      w1.stage.dessin = [] :=
  ⟨by decide,
    match (history_changes_only_by_commit
      [Input.event (Event.MOUSECLICK ⟨1, 1⟩), Input.event (Event.MOUSEMOVE ⟨2, 2⟩),
        Input.event (Event.MOUSECLICK ⟨2, 2⟩), Input.event (Event.key "Enter"),
        Input.undo]
      { state := MState.idle, polyline := none,
        stage := { lines := [⟨[1, 1, 2, 2], some "black", 2⟩], dessin := [],
                   temporaire := [] },
        undoManager :=
          { undoStack := [], redoStack := [Command.AddLineCommand 0 LayerId.dessin] },
        selectedLine := none }
      (by decide)).1 (Event.MOUSECLICK ⟨5, 5⟩) (fun h => absurd h.1 (by decide)) with
    | ⟨w1, _, h2, h3, h4, _⟩ => ⟨w1, h2 (by decide), h3, h4⟩⟩

theorem Command.undo_execute_points (c : Command) (s : Canvas) (j : Nat) :
    (c.execute s).points j = s.points j ∧ (c.undo s).points j = s.points j := by
  cases c with
  | AddLineCommand line layer =>
    simp [Command.execute, Command.undo, Canvas.points, Canvas.add_lines, Canvas.remove_lines]
  | ChangeColorCommand line n old =>
    cases line with
    | none => exact ⟨rfl, rfl⟩
    | some id =>
      exact ⟨Canvas.setStroke_points _ _ _ _, Canvas.setStroke_points _ _ _ _⟩

theorem UndoManager.undo_redo_points (h : UndoManager × Canvas) (j : Nat) :
    (UndoManager.undo h).2.points j = h.2.points j ∧
    (UndoManager.redo h).2.points j = h.2.points j := by
  obtain ⟨⟨U, R⟩, s⟩ := h
  constructor
  · cases U with
    | nil => rfl
    | cons c U => exact (Command.undo_execute_points c s j).2
  · cases R with
    | nil => rfl
    | cons c R => exact (Command.undo_execute_points c s j).1

/-- No input changes the points of a committed line, whether it is on the
drawing layer or was taken off it by `undo()`. -/
theorem World.input_keeps_committed {w w1 : World} (h : ProgInv w) (i : Input)
    (hi : w.input i = some w1) :
    ∀ id, id ∈ w.stage.dessin ∨ id ∈ addedLines w.undoManager.redoStack →
      w1.stage.points id = w.stage.points id := by
  intro id hid
  have hne : ∀ p, w.polyline = some p → p ≠ id := by
    intro p hp hpid
    rcases hid with hd | hr
    · exact h.base.polyline_not_drawn p hp (hpid ▸ hd)
    · exact h.polyline_fresh p hp (hpid ▸ hr)
  have hlt : id < w.stage.lines.length := by
    rcases hid with hd | hr
    · exact h.base.dessin_lt id hd
    · exact h.redo_lt id hr
  cases i with
  | event e =>
    obtain ⟨w2, hstep, hcases⟩ := World.step_cases h.base e
    have h12 : w2 = w1 := by
      have : some w2 = some w1 := by rw [← hstep]; exact hi
      exact Option.some.inj this
    subst h12
    rcases hcases with h0 | ⟨pts, h1⟩ | ⟨p, l, pts, st, hp, _, h2⟩ | ⟨p, _, h3⟩ |
      ⟨p, l, q, hp, _, _, h4⟩
    · rw [h0]
    · rw [h1]
      simp [World.withTransient, Canvas.points, List.getElem?_append_left hlt]
    · rw [h2]
      exact Canvas.setPoints_points_of_ne _ _ (hne p hp)
    · rw [h3]
      simp [Canvas.points, Canvas.remove_lines]
    · rw [h4]
      simp [Canvas.points, List.getElem?_set_ne (hne p hp)]
  | undo =>
    cases hi
    exact (UndoManager.undo_redo_points (w.undoManager, w.stage) id).1
  | redo =>
    cases hi
    exact (UndoManager.undo_redo_points (w.undoManager, w.stage) id).2
  | select j =>
    cases hi
    unfold World.select
    by_cases hj : j ∈ w.stage.dessin
    · simp only [hj, if_true]
      exact (Canvas.SameShape.trans (Canvas.sameShape_foldl_setStrokeWidth _ 2 w.stage)
        (Canvas.sameShape_setStrokeWidth _ j 4)).2.2.2 id
    · simp only [hj, if_false]
  | colorRed =>
    cases hi
    unfold World.recolor
    cases w.selectedLine with
    | none => rfl
    | some line => exact Canvas.setStroke_points _ _ _ _
  | colorBlue =>
    cases hi
    unfold World.recolor
    cases w.selectedLine with
    | none => rfl
    | some line => exact Canvas.setStroke_points _ _ _ _

/-- An event puts on the drawing layer the polyline under construction only,
stripped of its last point: on `Enter` the provisional point, on the
forced-commit click the point that click has just appended. -/
theorem World.step_commits_real_points {w w1 : World} (hinv : Inv w) (e : Event)
    (hstep : w.step e = some w1) :
    ∀ id ∈ w1.stage.dessin, id ∉ w.stage.dessin →
      ∃ pts q, w.polyline = some id ∧ w.stage.points id = some pts ∧
        w1.stage.points id = some q ∧
        ((e = Event.key "Enter" ∧ ∃ a b, pts = q ++ [a, b]) ∨
          (∃ pos, e = Event.MOUSECLICK pos ∧ q = pts)) := by
  intro id hid hnot
  obtain ⟨w2, hstep2, hcases⟩ := World.step_cases hinv e
  have h12 : w2 = w1 := by
    have : some w2 = some w1 := by rw [← hstep2]; exact hstep
    exact Option.some.inj this
  subst h12
  rcases hcases with h0 | ⟨pts, h1⟩ | ⟨p, l, pts, st, hp, _, h2⟩ | ⟨p, hp, h3⟩ |
    ⟨p, l, q, hp, hl, hq, h4⟩
  · rw [h0] at hid; exact absurd hid hnot
  · rw [h1] at hid; exact absurd hid hnot
  · rw [h2] at hid
    simp only [Canvas.setPoints_dessin] at hid
    exact absurd hid hnot
  · rw [h3] at hid
    simp only [Canvas.remove_dessin_of_not_mem (hinv.polyline_not_drawn p hp)] at hid
    exact absurd hid hnot
  · have hlt : p < w.stage.lines.length := (List.getElem?_eq_some.mp hl).1
    rw [h4] at hid ⊢
    simp only [List.mem_append, List.mem_singleton] at hid
    rcases hid with hid | hid
    · exact absurd hid hnot
    · subst hid
      refine ⟨l.points, q, hp, by simp [Canvas.points, hl],
        by simp [Canvas.points, List.getElem?_set_self hlt], hq⟩

theorem World.runInputs_events (w : World) (es : List Event) :
    w.runInputs (es.map Input.event) = w.run es := by
  induction es generalizing w with
  | nil => rfl
  | cons e es ih =>
    simp only [List.map_cons, World.runInputs, World.run, World.input]
    cases w.step e with
    | none => rfl
    | some w1 => simpa using ih w1

/-- C6: every sequence of inputs applied from the initial state (events of the
machine in any order, and also undo, redo, selections and color buttons) runs
without exception of a guard or an action, and in the state reached:
every line of the drawing layer has an even number of coordinates between 4
and `2 * MAX_POINTS` (2 to `MAX_POINTS` points, `MAX_POINTS` being 10) and is
not the polyline under construction; a line that an event puts on the drawing
layer is the polyline under construction without its last point, which is the
provisional point on `Enter` and the point the click itself appends on the
forced commit, so that exactly the real points are committed; and no input
changes the points of a line of the drawing layer afterwards. -/
theorem committed_polylines_bounded (is : List Input) :
    MAX_POINTS = 10 ∧
    ∃ w, World.init.runInputs is = some w ∧
      (∀ id ∈ w.stage.dessin, ∃ pts, w.stage.points id = some pts ∧
        2 * 2 ≤ pts.length ∧ pts.length ≤ 2 * MAX_POINTS ∧ pts.length % 2 = 0 ∧
        w.polyline ≠ some id) ∧
      (∀ (e : Event) (w1 : World), w.step e = some w1 →
        ∀ id ∈ w1.stage.dessin, id ∉ w.stage.dessin →
          ∃ pts q, w.polyline = some id ∧ w.stage.points id = some pts ∧
            w1.stage.points id = some q ∧
            ((e = Event.key "Enter" ∧ ∃ a b, pts = q ++ [a, b]) ∨
              (∃ pos, e = Event.MOUSECLICK pos ∧ q = pts))) ∧
      (∀ (i : Input) (w1 : World), w.input i = some w1 →
        ∀ id ∈ w.stage.dessin, w1.stage.points id = w.stage.points id) := by
  refine ⟨rfl, ?_⟩
  obtain ⟨w, hrun, hp⟩ := ProgInv.holds_init.of_runInputs is
  refine ⟨w, hrun, ?_, ?_, ?_⟩
  · intro id hid
    obtain ⟨pts, hpts, h1, h2, h3⟩ := hp.base.committed id hid
    exact ⟨pts, hpts, h1, h2, h3, fun hpoly => hp.base.polyline_not_drawn id hpoly hid⟩
  · intro e w1 hstep
    exact World.step_commits_real_points hp.base e hstep
  · intro i w1 hi id hid
    exact World.input_keeps_committed hp i hi id (Or.inl hid)

end PolylineUndo
